import Mathlib

/-!
Verification development for a Tomasulo-style pipeline simulator.

The definitions below are a shallow embedding of the simulator core found in
the repository's TypeScript sources:

* the assembly parser (`parseAssembly`),
* the fully-associative LRU cache model (`accessCache`),
* machine-state initialization (`initializeState`), and
* the per-cycle transition (`nextCycle`) with its three phases
  (write-back, execute, issue).

Modelling conventions:

* JavaScript numbers are modelled as rationals (`ℚ`); the simulator performs
  only exact arithmetic on register values in the scenarios of interest and
  the specification explicitly puts IEEE-754 precision out of scope.
* `null`-able fields are `Option`s.  Reservation-station tags are nonempty
  strings such as "A1", so JavaScript truthiness of a tag coincides with
  non-nullness.
* The JS object holding registers is modelled as a list of registers with
  unique names; an object's single slot per key corresponds to updating the
  first (unique) list entry with a given name.
* The sparse memory object is modelled as a total function `ℚ → ℚ`; the code
  reads memory with `memory[addr] || 0`, so absent keys and stored zeroes are
  indistinguishable, which the function model captures exactly.
* The purely informational event log (a list of display strings) is omitted;
  no other state component depends on it.
* `Array.prototype.sort` with comparator `(a, b) => a.lastAccess - b.lastAccess`
  is, per ECMAScript, a stable ascending sort; it is modelled by a stable
  insertion sort, which computes the same list.
* Built-in Lean string utilities (`String.toUpper`, `String.split`, ...) do not
  reduce inside the kernel, so the few character-level helpers the code needs
  are defined here over `List Char` directly.
-/

/-! ### Character/string helpers -/

/-- Uppercasing, as `String.prototype.toUpperCase()` on the ASCII opcodes used
by the programs. -/
def strUpper (s : String) : String := String.mk (s.data.map Char.toUpper)

/-- Substring test: `hay.includes(needle)` for character lists. -/
def infixOfB (pat : List Char) : List Char → Bool
  | [] => pat.isPrefixOf []
  | c :: cs => pat.isPrefixOf (c :: cs) || infixOfB pat cs

/-- Substring test on strings, as `String.prototype.includes`. -/
def strIncludes (s pat : String) : Bool := infixOfB pat.data s.data

/-- Split a character list at every character satisfying `p`, keeping empty
segments, as `String.prototype.split` with a single-character separator. -/
def splitCharList (p : Char → Bool) : List Char → List (List Char)
  | [] => [[]]
  | c :: cs =>
    let r := splitCharList p cs
    if p c then [] :: r
    else
      match r with
      | [] => [[c]]
      | t :: ts => (c :: t) :: ts

/-- Trim leading and trailing whitespace, as `String.prototype.trim`. -/
def trimChars (l : List Char) : List Char :=
  ((l.dropWhile Char.isWhitespace).reverse.dropWhile Char.isWhitespace).reverse

/-- Value of a nonempty leading run of decimal digits, if any. -/
def digitsVal (l : List Char) : Option Nat :=
  let ds := l.takeWhile Char.isDigit
  if ds.isEmpty then none
  else some (ds.foldl (fun acc c => acc * 10 + (c.toNat - 48)) 0)

/-- JavaScript `parseInt` on the comma/whitespace separated tokens the parser
produces: an optional sign followed by leading decimal digits; `none` models
`NaN`. -/
def parseIntJS (l : List Char) : Option Int :=
  match l with
  | '-' :: cs => (digitsVal cs).map (fun n => -(n : Int))
  | '+' :: cs => (digitsVal cs).map (fun n => (n : Int))
  | cs => (digitsVal cs).map (fun n => (n : Int))

/-! ### Data model (types.ts) -/

/-- Opcode classification (`OpType` in types.ts, with the `INTEGER` class of
the newer engine variant). -/
inductive OpType where
  | LOAD | STORE | ADD | SUB | MULT | DIV | INTEGER | BRANCH
  deriving DecidableEq, Inhabited

/-- Functional-unit classes of reservation stations. -/
inductive RSType where
  | ADD | MULT | LOAD | STORE | INTEGER
  deriving DecidableEq, Inhabited

/-- A dynamic instruction (`InstructionLine` in types.ts). -/
structure InstructionLine where
  id : Nat
  raw : String
  op : String
  dest : String
  src1 : String
  src2 : String
  immediate : ℚ
  pcAddress : Nat
  issueCycle : Option Nat
  execStartCycle : Option Nat
  execEndCycle : Option Nat
  writeCycle : Option Nat
  deriving DecidableEq, Inhabited

/-- A reservation station (`ReservationStation` in types.ts). -/
structure ReservationStation where
  id : String
  type : RSType
  busy : Bool
  op : Option String
  vj : Option ℚ
  vk : Option ℚ
  qj : Option String
  qk : Option String
  a : Option ℚ
  instId : Option Nat
  timeLeft : Nat
  result : Option ℚ
  deriving DecidableEq, Inhabited

/-- A register-file entry (`Register` in types.ts). -/
structure Register where
  name : String
  value : ℚ
  qi : Option String
  deriving DecidableEq, Inhabited

/-- A cache block (`CacheBlock` in types.ts); the unused `data` payload is
always the empty array in the source. -/
structure CacheBlock where
  tag : ℤ
  valid : Bool
  data : List ℚ
  lastAccess : Nat
  deriving DecidableEq, Inhabited

/-- The CDB slot payload. -/
structure CDBEntry where
  tag : String
  value : ℚ
  deriving DecidableEq, Inhabited

/-- Cache configuration. -/
structure CacheConfig where
  enabled : Bool
  blockSize : Nat
  cacheSize : Nat
  missPenalty : Nat
  deriving DecidableEq, Inhabited

/-- System configuration: reservation-station counts per class, per-class
latencies, cache parameters. -/
structure SystemConfig where
  rsSizes : RSType → Nat
  latencies : OpType → Nat
  cache : CacheConfig

/-- The whole machine state (`SimulationState` in types.ts, minus the
informational log). -/
structure SimulationState where
  cycle : Nat
  pc : Nat
  instructions : List InstructionLine
  reservationStations : List ReservationStation
  registers : List Register
  memory : ℚ → ℚ
  cache : List CacheBlock
  cdb : Option CDBEntry
  isFinished : Bool
  branchStall : Bool

/-! ### Generic list helpers used by the embedding -/

/-- Update the first element satisfying `p` (mutation of the object returned
by `Array.prototype.find`). -/
def updateFirst (p : α → Bool) (f : α → α) : List α → List α
  | [] => []
  | x :: xs => if p x then f x :: xs else x :: updateFirst p f xs

/-- Association-list lookup for label maps. -/
def lookupAssoc (l : List (String × Nat)) (k : String) : Option Nat :=
  (l.find? (fun p => p.1 = k)).map (·.2)

/-- Association-list store (`obj[k] = v`): overwrite the existing key or
append a new one. -/
def setAssoc : List (String × Nat) → String → Nat → List (String × Nat)
  | [], k, v => [(k, v)]
  | p :: ps, k, v => if p.1 = k then (k, v) :: ps else p :: setAssoc ps k v

/-! ### Helpers of the engine (tomasulo.ts lines 16-63) -/

/-- Opcode classification (`getOpType`, tomasulo.ts lines 16-41). -/
def getOpType (op : String) : OpType :=
  let u := strUpper op
  if ["L.D", "LW", "LD", "L.S"].contains u then .LOAD
  else if ["S.D", "SW", "SD", "S.S"].contains u then .STORE
  else if ["ADD.D", "ADD.S"].contains u then .ADD
  else if ["SUB.D", "SUB.S"].contains u then .SUB
  else if ["MUL", "MUL.D", "MUL.S"].contains u then .MULT
  else if ["DIV", "DIV.D", "DIV.S"].contains u then .DIV
  else if ["ADD", "ADDI", "DADDI", "DADD", "SUB", "SUBI", "DSUBI", "DSUB"].contains u then .INTEGER
  else if ["BNE", "BEQ", "BNEZ", "BEQZ"].contains u then .BRANCH
  else .INTEGER

/-- Functional-unit class of an opcode class (`getRSType`,
tomasulo.ts lines 43-63). -/
def getRSType (opType : OpType) : RSType :=
  match opType with
  | .LOAD => .LOAD
  | .STORE => .STORE
  | .MULT | .DIV => .MULT
  | .ADD | .SUB => .ADD
  | .INTEGER | .BRANCH => .INTEGER

/-! ### Cache model (`accessCache`, tomasulo.ts lines 65-107) -/

/-- Insert a block into a list that is already sorted ascending by
`lastAccess`, after any blocks with an equal key: exactly the placement a
stable ascending sort gives later elements. -/
def lruInsert (x : CacheBlock) : List CacheBlock → List CacheBlock
  | [] => [x]
  | c :: cs => if c.lastAccess ≤ x.lastAccess then c :: lruInsert x cs else x :: c :: cs

/-- Stable ascending sort by `lastAccess`, modelling
`newCache.sort((a, b) => a.lastAccess - b.lastAccess)`. -/
def sortByLastAccess (l : List CacheBlock) : List CacheBlock :=
  l.foldl (fun acc x => lruInsert x acc) []

/-- Cache lookup: returns `(hit, penalty, newCache)` exactly as the source's
`accessCache`. -/
def accessCache (addr : ℚ) (config : SystemConfig) (cache : List CacheBlock) (cycle : Nat) :
    Bool × Nat × List CacheBlock :=
  if config.cache.enabled = false then (true, 0, cache)
  else
    let tag : ℤ := ⌊addr / (config.cache.blockSize : ℚ)⌋
    let maxBlocks : ℚ := (config.cache.cacheSize : ℚ) / (config.cache.blockSize : ℚ)
    match cache.findIdx? (fun b => b.tag = tag) with
    | some i => (true, 0, cache.set i { cache.getD i default with lastAccess := cycle })
    | none =>
      let newBlock : CacheBlock := { tag := tag, valid := true, data := [], lastAccess := cycle }
      if (cache.length : ℚ) < maxBlocks then
        (false, config.cache.missPenalty, cache ++ [newBlock])
      else
        (false, config.cache.missPenalty, newBlock :: (sortByLastAccess cache).tail)

/-! ### Initialization (`initializeState`, tomasulo.ts lines 113-170) -/

/-- Build the stations of one functional-unit class. -/
def mkStations (t : RSType) (pfx : String) (count : Nat) : List ReservationStation :=
  (List.range count).map (fun i =>
    { id := pfx ++ toString (i + 1), type := t, busy := false, op := none,
      vj := none, vk := none, qj := none, qk := none, a := none,
      instId := none, timeLeft := 0, result := none })

/-- Initial machine state: stations per `rsSizes` in the fixed class order,
registers from the supplied values with empty tags, empty memory and cache. -/
def initializeState (instructions : List InstructionLine) (config : SystemConfig)
    (initialRegs : List (String × ℚ)) : SimulationState :=
  { cycle := 0, pc := 0, instructions := instructions,
    reservationStations :=
      mkStations .ADD "A" (config.rsSizes .ADD) ++
      mkStations .MULT "M" (config.rsSizes .MULT) ++
      mkStations .LOAD "L" (config.rsSizes .LOAD) ++
      mkStations .STORE "S" (config.rsSizes .STORE) ++
      mkStations .INTEGER "I" (config.rsSizes .INTEGER),
    registers := initialRegs.map (fun p => { name := p.1, value := p.2, qi := none }),
    memory := fun _ => 0, cache := [], cdb := none,
    isFinished := false, branchStall := false }

/-! ### Phase A: write-back (tomasulo.ts lines 193-255) -/

/-- A station ready to broadcast: busy, timer at zero, non-null result. -/
def readyRS (r : ReservationStation) : Bool :=
  r.busy && r.timeLeft = 0 && r.result.isSome

/-- Full reset of a reservation station, as the producer clear at
tomasulo.ts lines 240-254 (`timeLeft` is left untouched by the spread). -/
def clearRS (r : ReservationStation) : ReservationStation :=
  { r with busy := false, op := none, vj := none, vk := none, qj := none,
           qk := none, a := none, instId := none, result := none }

/-- Fill the first operand slot when its tag matches the broadcast. -/
def fillQj (tag : String) (v : ℚ) (r : ReservationStation) : ReservationStation :=
  if r.qj = some tag then { r with vj := some v, qj := none } else r

/-- Fill the second operand slot when its tag matches the broadcast. -/
def fillQk (tag : String) (v : ℚ) (r : ReservationStation) : ReservationStation :=
  if r.qk = some tag then { r with vk := some v, qk := none } else r

/-- Deliver the broadcast value to a busy station waiting on the producer tag
(tomasulo.ts lines 226-237): the `qj` slot first, then `qk` on the result. -/
def fillFromCDB (tag : String) (v : ℚ) (r : ReservationStation) : ReservationStation :=
  if r.busy then fillQk tag v (fillQj tag v r) else r

/-- Write-back: pick `readyToWrite[0]`, publish it on the CDB, record the
bound instruction's write cycle, update registers and waiting stations, and
clear the producer. -/
def phaseWrite (s : SimulationState) : SimulationState :=
  match s.reservationStations.findIdx? readyRS with
  | none => s
  | some pIdx =>
    let p := s.reservationStations.getD pIdx default
    let res := p.result.getD 0
    let instructions1 :=
      match p.instId with
      | some pid =>
        updateFirst (fun i => i.id = pid)
          (fun i => { i with writeCycle := some s.cycle }) s.instructions
      | none => s.instructions
    let registers1 := s.registers.map (fun r =>
      if r.qi = some p.id then { r with value := res, qi := none } else r)
    let stations1 := s.reservationStations.map (fillFromCDB p.id res)
    let stations2 := stations1.set pIdx (clearRS (stations1.getD pIdx default))
    { s with cdb := some { tag := p.id, value := res },
             instructions := instructions1, registers := registers1,
             reservationStations := stations2 }

/-! ### Phase B: execute (tomasulo.ts lines 260-390) -/

/-- The six state components the execute iteration may write. -/
structure ExecUpd where
  cache : List CacheBlock
  memory : ℚ → ℚ
  pc : Nat
  branchStall : Bool
  instructions : List InstructionLine
  stations : List ReservationStation

/-- Unchanged state components. -/
def keepUpd (s : SimulationState) : ExecUpd :=
  { cache := s.cache, memory := s.memory, pc := s.pc, branchStall := s.branchStall,
    instructions := s.instructions, stations := s.reservationStations }

/-- Cache access performed when a LOAD starts executing (tomasulo.ts
lines 275-292); any other station leaves the cache unchanged. -/
def execStage1Cache (cfg : SystemConfig) (s : SimulationState) (rs : ReservationStation)
    (inst : InstructionLine) : Bool × Nat × List CacheBlock :=
  if inst.execStartCycle = none ∧ getOpType inst.op = .LOAD then
    accessCache (rs.a.getD 0) cfg s.cache s.cycle
  else (true, 0, s.cache)

/-- Latency charged when execution starts: base LOAD latency plus the miss
penalty for loads, the configured latency otherwise. -/
def execLatency (cfg : SystemConfig) (opType : OpType)
    (cacheRes : Bool × Nat × List CacheBlock) : Nat :=
  if opType = .LOAD then cfg.latencies .LOAD + (if cacheRes.1 then 0 else cacheRes.2.1)
  else if opType = .STORE then cfg.latencies .STORE
  else cfg.latencies opType

/-- Result computation at execution end (the `switch` at tomasulo.ts
lines 316-366); stores and branches produce no meaningful result. -/
def execResVal (s : SimulationState) (rs : ReservationStation) (inst : InstructionLine) : ℚ :=
  let opType := getOpType inst.op
  let v1 := rs.vj.getD 0
  let v2 := rs.vk.getD 0
  let up := strUpper inst.op
  if opType = .ADD ∨ opType = .INTEGER then
    if ["ADD", "ADDI", "DADDI", "ADD.D", "ADD.S"].any (fun o => strIncludes up o) then v1 + v2
    else v1 - v2
  else if opType = .SUB then v1 - v2
  else if opType = .MULT then v1 * v2
  else if opType = .DIV then (if v2 ≠ 0 then v1 / v2 else 0)
  else if opType = .LOAD then s.memory (rs.a.getD 0)
  else 0

/-- Memory after execution end: a STORE writes `vk` to the address slot. -/
def execMemWrite (s : SimulationState) (rs : ReservationStation) (opType : OpType) : ℚ → ℚ :=
  if opType = .STORE then fun x => if x = rs.a.getD 0 then rs.vk.getD 0 else s.memory x
  else s.memory

/-- Branch resolution (tomasulo.ts lines 345-362): BNE-class taken on
`vj ≠ vk`, BEQ-class on `vj = vk`; a taken branch with a known label sets the
PC to the label's address, otherwise the PC is unchanged. -/
def branchTargetPC (lbl : List (String × Nat)) (s : SimulationState)
    (rs : ReservationStation) (inst : InstructionLine) : Nat :=
  let v1 := rs.vj.getD 0
  let v2 := rs.vk.getD 0
  let up := strUpper inst.op
  if (up.startsWith "BNE" ∧ ¬v1 = v2) ∨ (up.startsWith "BEQ" ∧ v1 = v2) then
    match lookupAssoc lbl inst.src2 with
    | some t => t
    | none => s.pc
  else s.pc

/-- PC after execution end: only a finishing BRANCH may change it. -/
def execPCUpd (lbl : List (String × Nat)) (s : SimulationState) (rs : ReservationStation)
    (inst : InstructionLine) (opType : OpType) : Nat :=
  if opType = .BRANCH then branchTargetPC lbl s rs inst else s.pc

/-- Branch-stall flag after execution end: a finishing BRANCH clears it. -/
def execBSUpd (s : SimulationState) (opType : OpType) : Bool :=
  if opType = .BRANCH then false else s.branchStall

/-- Completion part of one execute iteration, after the timer was decremented
to `t2` and the bound instruction advanced to `inst1`: on reaching zero,
record the execution end, apply the result side effects, and retire stores
and branches immediately (tomasulo.ts lines 308-388). -/
def execComplete (cfg : SystemConfig) (lbl : List (String × Nat)) (s : SimulationState)
    (i : Nat) (rs : ReservationStation) (iid : Nat) (inst1 : InstructionLine)
    (cache1 : List CacheBlock) (t2 : Nat) : ExecUpd :=
  if t2 = 0 ∧ inst1.execEndCycle = none then
    if getOpType inst1.op = .STORE ∨ getOpType inst1.op = .BRANCH then
      { cache := cache1,
        memory := execMemWrite s rs (getOpType inst1.op),
        pc := execPCUpd lbl s rs inst1 (getOpType inst1.op),
        branchStall := execBSUpd s (getOpType inst1.op),
        instructions := updateFirst (fun x => x.id = iid)
          (fun _ => { inst1 with execEndCycle := some s.cycle, writeCycle := some s.cycle })
          s.instructions,
        stations := s.reservationStations.set i (clearRS { rs with timeLeft := t2 }) }
    else
      { cache := cache1, memory := s.memory, pc := s.pc, branchStall := s.branchStall,
        instructions := updateFirst (fun x => x.id = iid)
          (fun _ => { inst1 with execEndCycle := some s.cycle }) s.instructions,
        stations := s.reservationStations.set i
          { rs with timeLeft := t2, result := some (execResVal s rs inst1) } }
  else
    { cache := cache1, memory := s.memory, pc := s.pc, branchStall := s.branchStall,
      instructions := updateFirst (fun x => x.id = iid) (fun _ => inst1) s.instructions,
      stations := s.reservationStations.set i { rs with timeLeft := t2 } }

/-- One execute iteration for station `rs` (position `i`): skip idle stations
and stations with a pending operand tag; otherwise start execution if needed
(charging latency and accessing the cache for loads), decrement the timer,
and run the completion step. -/
def execUpdGo (cfg : SystemConfig) (lbl : List (String × Nat)) (s : SimulationState)
    (i : Nat) (rs : ReservationStation) : ExecUpd :=
  if rs.busy = true ∧ rs.qj = none ∧ rs.qk = none then
    match rs.instId with
    | none => keepUpd s
    | some iid =>
      match s.instructions.find? (fun ins => ins.id = iid) with
      | none => keepUpd s
      | some inst =>
        let cacheRes := execStage1Cache cfg s rs inst
        let t1 :=
          if inst.execStartCycle = none then execLatency cfg (getOpType inst.op) cacheRes
          else rs.timeLeft
        let inst1 :=
          if inst.execStartCycle = none then { inst with execStartCycle := some s.cycle }
          else inst
        let t2 := if t1 > 0 then t1 - 1 else t1
        execComplete cfg lbl s i rs iid inst1 cacheRes.2.2 t2
  else keepUpd s

/-- Updates produced by processing station `i` in the execute phase. -/
def execUpd (cfg : SystemConfig) (lbl : List (String × Nat)) (s : SimulationState)
    (i : Nat) : ExecUpd :=
  execUpdGo cfg lbl s i (s.reservationStations.getD i default)

/-- One execute iteration applied to the state. -/
def execStep (cfg : SystemConfig) (lbl : List (String × Nat))
    (s : SimulationState) (i : Nat) : SimulationState :=
  let u := execUpd cfg lbl s i
  { s with cache := u.cache, memory := u.memory, pc := u.pc, branchStall := u.branchStall,
           instructions := u.instructions, reservationStations := u.stations }

/-- Execute phase: the in-order `forEach` over the reservation stations. -/
def execPhase (cfg : SystemConfig) (lbl : List (String × Nat))
    (s : SimulationState) : SimulationState :=
  (List.range s.reservationStations.length).foldl (execStep cfg lbl) s

/-! ### Phase C: issue (tomasulo.ts lines 395-589) -/

/-- Register lookup (`registers[name]`). -/
def lookupReg (regs : List Register) (n : String) : Option Register :=
  regs.find? (fun r => r.name = n)

/-- Operand renaming helper (`resolveOperand`, tomasulo.ts lines 502-512):
value for untagged or absent registers, the CDB value when the tag is being
broadcast this cycle, otherwise the tag. -/
def resolveOperand (s : SimulationState) (regName : String) : Option ℚ × Option String :=
  match lookupReg s.registers regName with
  | none => (some 0, none)
  | some reg =>
    match reg.qi with
    | some tag =>
      match s.cdb with
      | some c => if c.tag = tag then (some c.value, none) else (none, some tag)
      | none => (none, some tag)
    | none => (some reg.value, none)

/-- Base-register resolution for the effective address of a LOAD/STORE
(tomasulo.ts lines 440-449): `(effectiveAddr, stallIssue)`. -/
def resolveBase (s : SimulationState) (baseReg : String) (offset : ℚ) : Option ℚ × Bool :=
  match lookupReg s.registers baseReg with
  | some reg =>
    match reg.qi with
    | some tag =>
      match s.cdb with
      | some c => if c.tag = tag then (some (c.value + offset), false) else (none, true)
      | none => (none, true)
    | none => (some (reg.value + offset), false)
  | none => (some (0 + offset), false)

/-- Memory-disambiguation scan (tomasulo.ts lines 453-477): a busy station
bound to an earlier instruction whose address slot equals the candidate's
effective address, with a RAW/WAR/WAW opcode combination. -/
def memHazard (s : SimulationState) (candId : Nat) (addr : Option ℚ) (cand : OpType) : Bool :=
  s.reservationStations.any (fun c =>
    c.busy &&
      match c.instId with
      | some cid =>
        decide (cid < candId) && (c.a == addr) &&
          (let checkOp : OpType :=
            match s.instructions.find? (fun ins => ins.id = cid) with
            | some ci => getOpType ci.op
            | none => .INTEGER
           (cand == .LOAD && checkOp == .STORE) ||
             (cand == .STORE && (checkOp == .LOAD || checkOp == .STORE)))
      | none => false)

/-- Effective-address computation attempted at issue (tomasulo.ts
lines 434-449): LOAD/STORE resolve their base register; other opcodes have no
address. -/
def issueEffAddr (s : SimulationState) (issueInst : InstructionLine) : Option ℚ × Bool :=
  if getOpType issueInst.op = .LOAD ∨ getOpType issueInst.op = .STORE then
    resolveBase s issueInst.src1 issueInst.immediate
  else (none, false)

/-- The issue-stall decision (tomasulo.ts lines 429-478): an unavailable base
register, or a memory-disambiguation hazard against the resolved address. -/
def issueStall (s : SimulationState) (issueInst : InstructionLine) : Bool :=
  (issueEffAddr s issueInst).2 ||
    (decide (getOpType issueInst.op = .LOAD ∨ getOpType issueInst.op = .STORE) &&
      !(issueEffAddr s issueInst).2 &&
      memHazard s issueInst.id (issueEffAddr s issueInst).1 (getOpType issueInst.op))

/-- First operand (`Vj`/`Qj`) renaming at issue (tomasulo.ts lines 514-530):
branches read the register in the `dest` field, everything else reads `src1`;
an empty register field leaves both value and tag null. -/
def issueOp1 (s : SimulationState) (issueInst : InstructionLine) : Option ℚ × Option String :=
  if getOpType issueInst.op = .BRANCH then
    if issueInst.dest ≠ "" then resolveOperand s issueInst.dest else (none, none)
  else if issueInst.src1 ≠ "" then resolveOperand s issueInst.src1
  else (none, none)

/-- Second operand (`Vk`/`Qk`) and the address slot at issue (tomasulo.ts
lines 532-559): stores read the value-to-store from `dest` and keep the
effective address; branches read `src1`; loads only keep the effective
address; arithmetic reads `src2` or falls back to the immediate literal. -/
def issueOp2 (s : SimulationState) (issueInst : InstructionLine) :
    (Option ℚ × Option String) × Option ℚ :=
  if getOpType issueInst.op = .STORE then
    (resolveOperand s issueInst.dest, (issueEffAddr s issueInst).1)
  else if getOpType issueInst.op = .BRANCH then
    (if issueInst.src1 ≠ "" then resolveOperand s issueInst.src1 else (none, none), none)
  else if getOpType issueInst.op = .LOAD then ((none, none), (issueEffAddr s issueInst).1)
  else
    match lookupReg s.registers issueInst.src2 with
    | some _ => (resolveOperand s issueInst.src2, none)
    | none => ((some issueInst.immediate, none), none)

/-- The occupied reservation station built at issue commit (tomasulo.ts
lines 561-575). -/
def issueNewRS (s : SimulationState) (issueInst : InstructionLine) (fIdx : Nat) :
    ReservationStation :=
  { s.reservationStations.getD fIdx default with
    busy := true, op := some issueInst.op, instId := some issueInst.id,
    vj := (issueOp1 s issueInst).1, qj := (issueOp1 s issueInst).2,
    vk := (issueOp2 s issueInst).1.1, qk := (issueOp2 s issueInst).1.2,
    a := (issueOp2 s issueInst).2, timeLeft := 0, result := none }

/-- Commit of an issue into the free station at `fIdx` (tomasulo.ts
lines 489-586): stamp the issue cycle, advance the PC, raise the stall flag
for branches, rename the two operands per instruction family, occupy the
station, and update the register alias table for register-writing opcodes. -/
def issueCommit (cfg : SystemConfig) (s : SimulationState) (idx : Nat)
    (issueInst : InstructionLine) (fIdx : Nat) : SimulationState :=
  { s with
    instructions := s.instructions.set idx { issueInst with issueCycle := some s.cycle },
    pc := s.pc + 4,
    branchStall := if getOpType issueInst.op = .BRANCH then true else s.branchStall,
    reservationStations := s.reservationStations.set fIdx (issueNewRS s issueInst fIdx),
    registers :=
      if getOpType issueInst.op ≠ .STORE ∧ getOpType issueInst.op ≠ .BRANCH then
        match lookupReg s.registers issueInst.dest with
        | some _ =>
          updateFirst (fun r => r.name = issueInst.dest)
            (fun r => { r with qi := some (s.reservationStations.getD fIdx default).id })
            s.registers
        | none => s.registers
      else s.registers }

/-- Attempt to issue the instruction `issueInst` sitting at position `idx` of
the instruction list: stall checks, then the structural check for a free
station of the required class, then the commit. -/
def issueGo (cfg : SystemConfig) (s : SimulationState) (idx : Nat)
    (issueInst : InstructionLine) : SimulationState :=
  if issueStall s issueInst = true then s
  else
    match s.reservationStations.findIdx?
        (fun r => r.type = getRSType (getOpType issueInst.op) && r.busy = false) with
    | none => s
    | some fIdx => issueCommit cfg s idx issueInst fIdx

/-- Attempt to issue the instruction at position `idx`. -/
def issueAttempt (cfg : SystemConfig) (s : SimulationState) (idx : Nat) : SimulationState :=
  issueGo cfg s idx (s.instructions.getD idx default)

/-- Dynamic loop re-entry (tomasulo.ts lines 400-423): clone the template
with a fresh identity (one past the maximal id in the list) and all four
timestamps reset to null. -/
def cloneInst (s : SimulationState) (template : InstructionLine) : InstructionLine :=
  { template with
    id := (s.instructions.foldl (fun m i => max m i.id) 0) + 1,
    issueCycle := none, execStartCycle := none, execEndCycle := none, writeCycle := none }

/-- Issue phase: pick the un-issued instruction at the PC, or clone a
template for dynamic loop re-entry, then attempt the issue. -/
def phaseIssue (cfg : SystemConfig) (s : SimulationState) : SimulationState :=
  if s.branchStall = true then s
  else
    match s.instructions.findIdx? (fun i => i.pcAddress = s.pc && i.issueCycle = none) with
    | some idx => issueAttempt cfg s idx
    | none =>
      match s.instructions.find? (fun i => i.pcAddress = s.pc) with
      | none => s
      | some template =>
        issueAttempt cfg
          ({ s with instructions := s.instructions ++ [cloneInst s template] })
          s.instructions.length

/-! ### The full cycle (`nextCycle`, tomasulo.ts lines 176-607) -/

/-- The three phases in order, on the state with the cycle counter advanced
and the CDB cleared. -/
def stepCore (cfg : SystemConfig) (lbl : List (String × Nat)) (s : SimulationState) :
    SimulationState :=
  phaseIssue cfg (execPhase cfg lbl (phaseWrite { s with cycle := s.cycle + 1, cdb := none }))

/-- Completion check (tomasulo.ts lines 594-604): finished once every dynamic
instruction has written and the PC no longer matches any dynamic
instruction's address. -/
def finishCheck (s3 : SimulationState) : SimulationState :=
  if s3.instructions.all (fun i => i.writeCycle.isSome) &&
      !s3.instructions.any (fun i => i.pcAddress = s3.pc) then
    { s3 with isFinished := true }
  else s3

/-- One clock cycle: a no-op when finished, otherwise the three phases
followed by the completion check. -/
def nextCycle (cfg : SystemConfig) (lbl : List (String × Nat)) (s : SimulationState) :
    SimulationState :=
  if s.isFinished = true then s else finishCheck (stepCore cfg lbl s)

/-! ### Assembly parser (`parseAssembly`, services/parser.ts) -/

/-- Label extraction for one line: a line containing ':' binds the trimmed
text before the first colon to the current PC and continues with the trimmed
text after it. -/
def firstPassLabel (line : List Char) (pcCounter : Nat) (labelsAcc : List (String × Nat)) :
    List (String × Nat) × List Char :=
  if line.contains ':' then
    (setAssoc labelsAcc
      (String.mk (trimChars ((splitCharList (fun c => c = ':') line).getD 0 []))) pcCounter,
     trimChars ((splitCharList (fun c => c = ':') line).getD 1 []))
  else (labelsAcc, line)

/-- First pass over the trimmed nonempty lines: extract `LABEL:` prefixes into
the label map and collect the remaining instruction texts with their PC
addresses (4 bytes apart, label-only lines skipped). -/
def firstPassGo : List (List Char) → Nat → List (List Char × Nat) →
    List (String × Nat) → List (List Char × Nat) × List (String × Nat)
  | [], _, cleanAcc, labelsAcc => (cleanAcc.reverse, labelsAcc)
  | line :: rest, pcCounter, cleanAcc, labelsAcc =>
    if (firstPassLabel line pcCounter labelsAcc).2.length > 0 then
      firstPassGo rest (pcCounter + 4)
        (((firstPassLabel line pcCounter labelsAcc).2, pcCounter) :: cleanAcc)
        (firstPassLabel line pcCounter labelsAcc).1
    else
      firstPassGo rest pcCounter cleanAcc (firstPassLabel line pcCounter labelsAcc).1

/-- The load/store operand shape `^(-?\d+)\((.+)\)$`: a signed decimal offset
immediately followed by a parenthesized nonempty base-register text ending the
token. -/
def parseOffsetBase (l : List Char) : Option (Int × List Char) :=
  let sgn : Bool := match l with | '-' :: _ => true | _ => false
  let body := if sgn then l.drop 1 else l
  let ds := body.takeWhile Char.isDigit
  if ds.isEmpty then none
  else
    match body.drop ds.length with
    | '(' :: r2 =>
      match r2.reverse with
      | ')' :: brev =>
        if brev.isEmpty then none
        else
          let n : Nat := ds.foldl (fun acc c => acc * 10 + (c.toNat - 48)) 0
          some (if sgn then -(n : Int) else (n : Int), brev.reverse)
      | _ => none
    | _ => none

/-- Second pass for one cleaned line: tokenize on commas/whitespace, decode
the load/store `OFFSET(BASE)` shape or the immediate/label operand, and build
the instruction record with null timestamps. -/
def parseLine (labels : List (String × Nat)) (index : Nat) (item : List Char × Nat) :
    InstructionLine :=
  let tokens :=
    (splitCharList Char.isWhitespace
        (item.1.map (fun ch => if ch = ',' then ' ' else ch))).filter
      (fun t => !t.isEmpty)
  let op := strUpper (String.mk (tokens.getD 0 []))
  let dest := String.mk (tokens.getD 1 [])
  let src1tok := tokens.getD 2 []
  let src2tok := tokens.getD 3 []
  let decoded : Int × String × String :=
    if (src1tok.contains '(') && (src1tok.contains ')') then
      match parseOffsetBase src1tok with
      | some (imm, base) => (imm, String.mk base, toString imm)
      | none => (0, String.mk src1tok, String.mk src2tok)
    else
      let imm := (parseIntJS src2tok).getD 0
      let src2a :=
        if (lookupAssoc labels (String.mk src2tok)).isSome then String.mk src2tok
        else if (lookupAssoc labels (String.mk src1tok)).isSome ∧ src2tok.isEmpty then
          String.mk src1tok
        else String.mk src2tok
      (imm, String.mk src1tok, src2a)
  { id := index, raw := String.mk item.1, op := op, dest := dest,
    src1 := decoded.2.1, src2 := decoded.2.2, immediate := (decoded.1 : ℚ),
    pcAddress := item.2, issueCycle := none, execStartCycle := none,
    execEndCycle := none, writeCycle := none }

/-- The parser: split into trimmed nonempty lines, collect labels and PCs,
then decode every line unconditionally into an instruction record. -/
def parseAssembly (code : String) : List InstructionLine × List (String × Nat) :=
  let lines :=
    ((splitCharList (fun c => c = '\n') code.data).map trimChars).filter
      (fun l => l.length > 0)
  let fp := firstPassGo lines 0 [] []
  (fp.1.mapIdx (fun idx item => parseLine fp.2 idx item), fp.2)

/-! ### Generic lemmas about the list helpers -/

theorem updateFirst_length {α : Type _} (p : α → Bool) (f : α → α) (l : List α) :
    (updateFirst p f l).length = l.length := by
  induction l with
  | nil => rfl
  | cons x xs ih =>
    simp only [updateFirst]
    split <;> simp [ih]

theorem updateFirst_map {α β : Type _} (p : α → Bool) (f : α → α) (g : α → β) (l : List α)
    (hg : ∀ a, l.find? p = some a → g (f a) = g a) :
    (updateFirst p f l).map g = l.map g := by
  induction l with
  | nil => rfl
  | cons x xs ih =>
    simp only [updateFirst]
    split
    · rename_i hx
      have := hg x (by simp [List.find?_cons, hx])
      simp [this]
    · rename_i hx
      have : xs.find? p = (x :: xs).find? p := by simp [List.find?_cons, hx]
      simp only [List.map_cons]
      rw [ih (fun a ha => hg a (this ▸ ha))]

theorem mem_updateFirst {α : Type _} {p : α → Bool} {f : α → α} {l : List α} {x : α}
    (h : x ∈ updateFirst p f l) : x ∈ l ∨ ∃ y ∈ l, p y = true ∧ x = f y := by
  induction l with
  | nil => simp [updateFirst] at h
  | cons a as ih =>
    simp only [updateFirst] at h
    split at h
    · rcases List.mem_cons.mp h with h1 | h1
      · right
        exact ⟨a, List.mem_cons_self a as, by assumption, h1⟩
      · left
        exact List.mem_cons_of_mem _ h1
    · rcases List.mem_cons.mp h with h1 | h1
      · left
        simp [h1]
      · rcases ih h1 with h2 | ⟨y, hy, hpy, hxy⟩
        · left
          exact List.mem_cons_of_mem _ h2
        · right
          exact ⟨y, List.mem_cons_of_mem _ hy, hpy, hxy⟩

theorem foldl_pres {α β : Type _} {f : β → α → β} {P : β → Prop}
    (h : ∀ b a, P b → P (f b a)) :
    ∀ (l : List α) (b : β), P b → P (List.foldl f b l) := by
  intro l
  induction l with
  | nil => exact fun b hb => hb
  | cons x xs ih => exact fun b hb => ih _ (h b x hb)

theorem findIdx?_go_spec {α : Type _} {p : α → Bool} (d : α) :
    ∀ (l : List α) (n i : Nat), List.findIdx? p l n = some i →
      n ≤ i ∧ i - n < l.length ∧ p (l.getD (i - n) d) = true ∧
        ∀ j, j < i - n → p (l.getD j d) = false := by
  intro l
  induction l with
  | nil => intro n i h; simp [List.findIdx?] at h
  | cons x xs ih =>
    intro n i h
    rw [List.findIdx?_cons] at h
    split at h
    · rename_i hx
      cases h
      refine ⟨Nat.le_refl _, by simp, ?_, ?_⟩
      · simp [hx]
      · intro j hj; omega
    · rename_i hx
      obtain ⟨h1, h2, h3, h4⟩ := ih (n + 1) i h
      refine ⟨by omega, by simp; omega, ?_, ?_⟩
      · have : i - n = (i - (n + 1)) + 1 := by omega
        rw [this]
        simpa using h3
      · intro j hj
        match j with
        | 0 => simpa using hx
        | j' + 1 =>
          have : j' < i - (n + 1) := by omega
          simpa using h4 j' this

theorem findIdx?_spec {α : Type _} {p : α → Bool} {l : List α} {i : Nat} (d : α)
    (h : l.findIdx? p = some i) :
    i < l.length ∧ p (l.getD i d) = true ∧ ∀ j, j < i → p (l.getD j d) = false := by
  obtain ⟨-, h2, h3, h4⟩ := findIdx?_go_spec d l 0 i h
  exact ⟨by simpa using h2, by simpa using h3, fun j hj => by simpa using h4 j (by omega)⟩

/-! ### Field-preservation lemmas for the phases -/

theorem phaseWrite_cycle (s : SimulationState) : (phaseWrite s).cycle = s.cycle := by
  unfold phaseWrite
  split <;> rfl

theorem phaseWrite_pc (s : SimulationState) : (phaseWrite s).pc = s.pc := by
  unfold phaseWrite
  split <;> rfl

theorem phaseWrite_isFinished (s : SimulationState) :
    (phaseWrite s).isFinished = s.isFinished := by
  unfold phaseWrite
  split <;> rfl

theorem phaseWrite_branchStall (s : SimulationState) :
    (phaseWrite s).branchStall = s.branchStall := by
  unfold phaseWrite
  split <;> rfl

theorem phaseWrite_issueCycles (s : SimulationState) :
    (phaseWrite s).instructions.map (fun x => x.issueCycle) =
      s.instructions.map (fun x => x.issueCycle) := by
  unfold phaseWrite
  split
  · rfl
  · dsimp only
    split
    · exact updateFirst_map _ _ _ _ (fun a _ => rfl)
    · rfl

theorem phaseWrite_regNames (s : SimulationState) :
    (phaseWrite s).registers.map (fun r => r.name) = s.registers.map (fun r => r.name) := by
  unfold phaseWrite
  split
  · rfl
  · dsimp only
    rw [List.map_map]
    apply List.map_congr_left
    intro r _
    simp only [Function.comp_apply]
    split <;> rfl

theorem execStep_cycle (cfg : SystemConfig) (lbl : List (String × Nat))
    (s : SimulationState) (i : Nat) : (execStep cfg lbl s i).cycle = s.cycle := rfl

theorem execStep_isFinished (cfg : SystemConfig) (lbl : List (String × Nat))
    (s : SimulationState) (i : Nat) : (execStep cfg lbl s i).isFinished = s.isFinished := rfl

theorem execStep_cdb (cfg : SystemConfig) (lbl : List (String × Nat))
    (s : SimulationState) (i : Nat) : (execStep cfg lbl s i).cdb = s.cdb := rfl

theorem execStep_registers (cfg : SystemConfig) (lbl : List (String × Nat))
    (s : SimulationState) (i : Nat) : (execStep cfg lbl s i).registers = s.registers := rfl

theorem execPhase_cycle (cfg : SystemConfig) (lbl : List (String × Nat))
    (s : SimulationState) : (execPhase cfg lbl s).cycle = s.cycle := by
  unfold execPhase
  refine foldl_pres (P := fun st => st.cycle = s.cycle) ?_ _ s rfl
  intro b a hb
  rw [execStep_cycle, hb]

theorem execPhase_isFinished (cfg : SystemConfig) (lbl : List (String × Nat))
    (s : SimulationState) : (execPhase cfg lbl s).isFinished = s.isFinished := by
  unfold execPhase
  refine foldl_pres (P := fun st => st.isFinished = s.isFinished) ?_ _ s rfl
  intro b a hb
  rw [execStep_isFinished, hb]

theorem execPhase_cdb (cfg : SystemConfig) (lbl : List (String × Nat))
    (s : SimulationState) : (execPhase cfg lbl s).cdb = s.cdb := by
  unfold execPhase
  refine foldl_pres (P := fun st => st.cdb = s.cdb) ?_ _ s rfl
  intro b a hb
  rw [execStep_cdb, hb]

theorem execPhase_registers (cfg : SystemConfig) (lbl : List (String × Nat))
    (s : SimulationState) : (execPhase cfg lbl s).registers = s.registers := by
  unfold execPhase
  refine foldl_pres (P := fun st => st.registers = s.registers) ?_ _ s rfl
  intro b a hb
  rw [execStep_registers, hb]

theorem execComplete_instrs (cfg : SystemConfig) (lbl : List (String × Nat))
    (s : SimulationState) (i : Nat) (rs : ReservationStation) (iid : Nat)
    (inst1 : InstructionLine) (cache1 : List CacheBlock) (t2 : Nat)
    (h : ∀ a, s.instructions.find? (fun x => x.id = iid) = some a →
      inst1.issueCycle = a.issueCycle) :
    (execComplete cfg lbl s i rs iid inst1 cache1 t2).instructions.map (fun x => x.issueCycle) =
      s.instructions.map (fun x => x.issueCycle) := by
  unfold execComplete
  split
  · split
    · exact updateFirst_map _ _ _ _ (fun a ha => h a ha)
    · exact updateFirst_map _ _ _ _ (fun a ha => h a ha)
  · exact updateFirst_map _ _ _ _ (fun a ha => h a ha)

theorem execUpd_instrs (cfg : SystemConfig) (lbl : List (String × Nat))
    (s : SimulationState) (i : Nat) :
    (execUpd cfg lbl s i).instructions.map (fun x => x.issueCycle) =
      s.instructions.map (fun x => x.issueCycle) := by
  unfold execUpd execUpdGo
  split
  · split
    · rfl
    · split
      · rfl
      · rename_i inst hfind
        refine execComplete_instrs cfg lbl s i _ _ _ _ _ ?_
        intro a ha
        rw [hfind] at ha
        cases ha
        split <;> rfl
  · rfl

theorem execComplete_branchStall (cfg : SystemConfig) (lbl : List (String × Nat))
    (s : SimulationState) (i : Nat) (rs : ReservationStation) (iid : Nat)
    (inst1 : InstructionLine) (cache1 : List CacheBlock) (t2 : Nat) :
    (execComplete cfg lbl s i rs iid inst1 cache1 t2).branchStall = s.branchStall ∨
      ((execComplete cfg lbl s i rs iid inst1 cache1 t2).branchStall = false ∧
        getOpType inst1.op = OpType.BRANCH) := by
  unfold execComplete
  split
  · split
    · show execBSUpd s (getOpType inst1.op) = s.branchStall ∨
        (execBSUpd s (getOpType inst1.op) = false ∧ getOpType inst1.op = OpType.BRANCH)
      unfold execBSUpd
      split
      · right
        exact ⟨rfl, by assumption⟩
      · left
        rfl
    · left
      rfl
  · left
    rfl

theorem execUpd_branchStall (cfg : SystemConfig) (lbl : List (String × Nat))
    (s : SimulationState) (i : Nat) :
    (execUpd cfg lbl s i).branchStall = s.branchStall ∨
      ((execUpd cfg lbl s i).branchStall = false ∧ ∃ iid inst,
        (s.reservationStations.getD i default).instId = some iid ∧
        s.instructions.find? (fun ins => ins.id = iid) = some inst ∧
        getOpType inst.op = OpType.BRANCH) := by
  unfold execUpd execUpdGo
  split
  · split
    · left
      rfl
    · split
      · left
        rfl
      · rename_i iid hiid x2 inst hfind
        have hopeq : (if inst.execStartCycle = none then
            { inst with execStartCycle := some s.cycle } else inst).op = inst.op := by
          split <;> rfl
        refine Or.imp (fun h => h)
          (fun h => ⟨h.1, iid, inst, hiid, hfind, hopeq ▸ h.2⟩)
          (execComplete_branchStall cfg lbl s i _ iid _ _ _)
  · left
    rfl

theorem execComplete_stations (cfg : SystemConfig) (lbl : List (String × Nat))
    (s : SimulationState) (i : Nat) (rs : ReservationStation) (iid : Nat)
    (inst1 : InstructionLine) (cache1 : List CacheBlock) (t2 : Nat) :
    (execComplete cfg lbl s i rs iid inst1 cache1 t2).stations =
        s.reservationStations.set i (clearRS { rs with timeLeft := t2 }) ∨
      (execComplete cfg lbl s i rs iid inst1 cache1 t2).stations =
        s.reservationStations.set i
          { rs with timeLeft := t2, result := some (execResVal s rs inst1) } ∨
      (execComplete cfg lbl s i rs iid inst1 cache1 t2).stations =
        s.reservationStations.set i { rs with timeLeft := t2 } := by
  unfold execComplete
  split
  · split
    · left
      rfl
    · right
      left
      rfl
  · right
    right
    rfl

theorem execUpd_stations (cfg : SystemConfig) (lbl : List (String × Nat))
    (s : SimulationState) (i : Nat) :
    (execUpd cfg lbl s i).stations = s.reservationStations ∨
      (∃ t, (execUpd cfg lbl s i).stations =
        s.reservationStations.set i
          (clearRS { s.reservationStations.getD i default with timeLeft := t })) ∨
      (∃ t r, (execUpd cfg lbl s i).stations =
        s.reservationStations.set i
          { s.reservationStations.getD i default with timeLeft := t, result := r }) := by
  unfold execUpd execUpdGo
  split
  · split
    · left
      rfl
    · split
      · left
        rfl
      · rename_i iid hiid x2 inst hfind
        refine Or.inr ((execComplete_stations cfg lbl s i _ iid _ _ _).imp
          (fun h => ⟨_, h⟩)
          (fun h2 => h2.elim (fun h => ⟨_, _, h⟩) (fun h => ⟨_, _, h⟩)))
  · left
    rfl

/-! ### Issue-phase and completion-check lemmas -/

theorem issueCommit_cycle (cfg : SystemConfig) (s : SimulationState) (idx : Nat)
    (inst : InstructionLine) (fIdx : Nat) :
    (issueCommit cfg s idx inst fIdx).cycle = s.cycle := rfl

theorem issueCommit_isFinished (cfg : SystemConfig) (s : SimulationState) (idx : Nat)
    (inst : InstructionLine) (fIdx : Nat) :
    (issueCommit cfg s idx inst fIdx).isFinished = s.isFinished := rfl

theorem issueCommit_cdb (cfg : SystemConfig) (s : SimulationState) (idx : Nat)
    (inst : InstructionLine) (fIdx : Nat) :
    (issueCommit cfg s idx inst fIdx).cdb = s.cdb := rfl

theorem issueCommit_instructions (cfg : SystemConfig) (s : SimulationState) (idx : Nat)
    (inst : InstructionLine) (fIdx : Nat) :
    (issueCommit cfg s idx inst fIdx).instructions =
      s.instructions.set idx { inst with issueCycle := some s.cycle } := rfl

theorem issueCommit_branchStall (cfg : SystemConfig) (s : SimulationState) (idx : Nat)
    (inst : InstructionLine) (fIdx : Nat) :
    (issueCommit cfg s idx inst fIdx).branchStall =
      (if getOpType inst.op = .BRANCH then true else s.branchStall) := rfl

theorem issueGo_cases (cfg : SystemConfig) (s : SimulationState) (idx : Nat)
    (inst : InstructionLine) :
    issueGo cfg s idx inst = s ∨
      (issueStall s inst = false ∧ ∃ fIdx,
        s.reservationStations.findIdx?
            (fun r => r.type = getRSType (getOpType inst.op) && r.busy = false) = some fIdx ∧
        issueGo cfg s idx inst = issueCommit cfg s idx inst fIdx) := by
  unfold issueGo
  split
  · left
    rfl
  · rename_i hstall
    split
    · left
      rfl
    · rename_i fIdx hf
      right
      exact ⟨by simpa using hstall, fIdx, hf, rfl⟩

theorem phaseIssue_cases (cfg : SystemConfig) (s : SimulationState) :
    (s.branchStall = true ∧ phaseIssue cfg s = s) ∨
      (s.branchStall = false ∧ ∃ idx,
        s.instructions.findIdx? (fun i => i.pcAddress = s.pc && i.issueCycle = none) =
          some idx ∧
        phaseIssue cfg s = issueAttempt cfg s idx) ∨
      (s.branchStall = false ∧
        s.instructions.findIdx? (fun i => i.pcAddress = s.pc && i.issueCycle = none) = none ∧
        s.instructions.find? (fun i => i.pcAddress = s.pc) = none ∧
        phaseIssue cfg s = s) ∨
      (s.branchStall = false ∧ ∃ template,
        s.instructions.findIdx? (fun i => i.pcAddress = s.pc && i.issueCycle = none) = none ∧
        s.instructions.find? (fun i => i.pcAddress = s.pc) = some template ∧
        phaseIssue cfg s =
          issueAttempt cfg
            ({ s with instructions := s.instructions ++ [cloneInst s template] })
            s.instructions.length) := by
  unfold phaseIssue
  split
  · left
    exact ⟨by assumption, rfl⟩
  · rename_i hbs
    have hbs' : s.branchStall = false := by
      revert hbs
      cases s.branchStall <;> simp
    split
    · rename_i idx hidx
      right
      left
      exact ⟨hbs', idx, hidx, rfl⟩
    · rename_i hidx
      split
      · rename_i hfind
        right
        right
        left
        exact ⟨hbs', hidx, hfind, rfl⟩
      · rename_i template hfind
        right
        right
        right
        exact ⟨hbs', template, hidx, hfind, rfl⟩

theorem finishCheck_instructions (s : SimulationState) :
    (finishCheck s).instructions = s.instructions := by
  unfold finishCheck
  split <;> rfl

theorem finishCheck_pc (s : SimulationState) : (finishCheck s).pc = s.pc := by
  unfold finishCheck
  split <;> rfl

theorem finishCheck_cycle (s : SimulationState) : (finishCheck s).cycle = s.cycle := by
  unfold finishCheck
  split <;> rfl

theorem finishCheck_cdb (s : SimulationState) : (finishCheck s).cdb = s.cdb := by
  unfold finishCheck
  split <;> rfl

theorem finishCheck_branchStall (s : SimulationState) :
    (finishCheck s).branchStall = s.branchStall := by
  unfold finishCheck
  split <;> rfl

theorem finishCheck_stations (s : SimulationState) :
    (finishCheck s).reservationStations = s.reservationStations := by
  unfold finishCheck
  split <;> rfl

theorem finishCheck_registers (s : SimulationState) :
    (finishCheck s).registers = s.registers := by
  unfold finishCheck
  split <;> rfl

theorem issueGo_isFinished (cfg : SystemConfig) (s : SimulationState) (idx : Nat)
    (inst : InstructionLine) : (issueGo cfg s idx inst).isFinished = s.isFinished := by
  rcases issueGo_cases cfg s idx inst with h | ⟨-, fIdx, -, h⟩ <;> rw [h]
  rfl

theorem issueGo_cycle (cfg : SystemConfig) (s : SimulationState) (idx : Nat)
    (inst : InstructionLine) : (issueGo cfg s idx inst).cycle = s.cycle := by
  rcases issueGo_cases cfg s idx inst with h | ⟨-, fIdx, -, h⟩ <;> rw [h]
  rfl

theorem issueGo_cdb (cfg : SystemConfig) (s : SimulationState) (idx : Nat)
    (inst : InstructionLine) : (issueGo cfg s idx inst).cdb = s.cdb := by
  rcases issueGo_cases cfg s idx inst with h | ⟨-, fIdx, -, h⟩ <;> rw [h]
  rfl

theorem phaseIssue_isFinished (cfg : SystemConfig) (s : SimulationState) :
    (phaseIssue cfg s).isFinished = s.isFinished := by
  rcases phaseIssue_cases cfg s with ⟨-, h⟩ | ⟨-, idx, -, h⟩ | ⟨-, -, -, h⟩ |
    ⟨-, t, -, -, h⟩ <;> rw [h]
  · exact issueGo_isFinished ..
  · exact issueGo_isFinished ..

theorem phaseIssue_cycle (cfg : SystemConfig) (s : SimulationState) :
    (phaseIssue cfg s).cycle = s.cycle := by
  rcases phaseIssue_cases cfg s with ⟨-, h⟩ | ⟨-, idx, -, h⟩ | ⟨-, -, -, h⟩ |
    ⟨-, t, -, -, h⟩ <;> rw [h]
  · exact issueGo_cycle ..
  · exact issueGo_cycle ..

theorem phaseIssue_cdb (cfg : SystemConfig) (s : SimulationState) :
    (phaseIssue cfg s).cdb = s.cdb := by
  rcases phaseIssue_cases cfg s with ⟨-, h⟩ | ⟨-, idx, -, h⟩ | ⟨-, -, -, h⟩ |
    ⟨-, t, -, -, h⟩ <;> rw [h]
  · exact issueGo_cdb ..
  · exact issueGo_cdb ..

theorem stepCore_isFinished (cfg : SystemConfig) (lbl : List (String × Nat))
    (s : SimulationState) : (stepCore cfg lbl s).isFinished = s.isFinished := by
  unfold stepCore
  rw [phaseIssue_isFinished, execPhase_isFinished, phaseWrite_isFinished]

theorem stepCore_cycle (cfg : SystemConfig) (lbl : List (String × Nat))
    (s : SimulationState) : (stepCore cfg lbl s).cycle = s.cycle + 1 := by
  unfold stepCore
  rw [phaseIssue_cycle, execPhase_cycle, phaseWrite_cycle]

/-! ### Claim C2 -/

/-- C2: after every step from a non-finished state, the finished flag is set
exactly when (a) every dynamic instruction in the list has a non-null
writeCycle and (b) no dynamic instruction has the current PC as its
pcAddress. -/
theorem c2_finished_flag (cfg : SystemConfig) (lbl : List (String × Nat)) (s : SimulationState)
    (h : s.isFinished = false) :
    ((nextCycle cfg lbl s).isFinished = true ↔
      ((∀ i ∈ (nextCycle cfg lbl s).instructions, i.writeCycle.isSome = true) ∧
        ¬ ∃ i ∈ (nextCycle cfg lbl s).instructions,
            i.pcAddress = (nextCycle cfg lbl s).pc)) := by
  have hn : nextCycle cfg lbl s = finishCheck (stepCore cfg lbl s) := by
    unfold nextCycle
    rw [if_neg (by simp [h])]
  have h3 : (stepCore cfg lbl s).isFinished = false := by rw [stepCore_isFinished, h]
  rw [hn]
  unfold finishCheck
  split
  · rename_i hcond
    simp only [Bool.and_eq_true, List.all_eq_true, Bool.not_eq_true', List.any_eq_false,
      decide_eq_true_eq] at hcond
    constructor
    · intro _
      refine ⟨fun i hi => hcond.1 i hi, ?_⟩
      rintro ⟨i, hi, hpc⟩
      exact hcond.2 i hi hpc
    · intro _
      rfl
  · rename_i hcond
    constructor
    · intro hx
      rw [h3] at hx
      cases hx
    · rintro ⟨h1, h2⟩
      exfalso
      apply hcond
      simp only [Bool.and_eq_true, List.all_eq_true, Bool.not_eq_true', List.any_eq_false,
        decide_eq_true_eq]
      exact ⟨fun i hi => h1 i hi, fun i hi hpc => h2 ⟨i, hi, hpc⟩⟩

/-- A small configuration used by the concrete instances below: one station
per class, the default latencies, cache disabled. -/
def cfg0 : SystemConfig :=
  { rsSizes := fun _ => 1,
    latencies := fun o =>
      match o with
      | .LOAD => 2 | .STORE => 2 | .ADD => 2 | .SUB => 2
      | .MULT => 10 | .DIV => 40 | .INTEGER => 1 | .BRANCH => 1,
    cache := { enabled := false, blockSize := 4, cacheSize := 16, missPenalty := 10 } }

/-- Witness for C2 at a concrete input: the empty program finishes after one
step, and both conditions of the equivalence hold there. -/
theorem c2_finished_flag_witness :
    (nextCycle cfg0 [] (initializeState [] cfg0 [])).isFinished = true :=
  (c2_finished_flag cfg0 [] (initializeState [] cfg0 []) rfl).mpr
    (by
      have he : (nextCycle cfg0 [] (initializeState [] cfg0 [])).instructions = [] := by
        decide
      rw [he]
      simp)

/-! ### Claim C10 -/

theorem issueCommit_registers (cfg : SystemConfig) (s : SimulationState) (idx : Nat)
    (inst : InstructionLine) (fIdx : Nat) :
    (issueCommit cfg s idx inst fIdx).registers =
      (if getOpType inst.op ≠ .STORE ∧ getOpType inst.op ≠ .BRANCH then
        match lookupReg s.registers inst.dest with
        | some _ =>
          updateFirst (fun r => r.name = inst.dest)
            (fun r => { r with qi := some (s.reservationStations.getD fIdx default).id })
            s.registers
        | none => s.registers
      else s.registers) := rfl

theorem issueCommit_regNames (cfg : SystemConfig) (s : SimulationState) (idx : Nat)
    (inst : InstructionLine) (fIdx : Nat) :
    (issueCommit cfg s idx inst fIdx).registers.map (fun r => r.name) =
      s.registers.map (fun r => r.name) := by
  rw [issueCommit_registers]
  split
  · split
    · exact updateFirst_map _ _ _ _ (fun a _ => rfl)
    · rfl
  · rfl

theorem issueGo_regNames (cfg : SystemConfig) (s : SimulationState) (idx : Nat)
    (inst : InstructionLine) :
    (issueGo cfg s idx inst).registers.map (fun r => r.name) =
      s.registers.map (fun r => r.name) := by
  rcases issueGo_cases cfg s idx inst with h | ⟨-, fIdx, -, h⟩ <;> rw [h]
  rw [issueCommit_regNames]

theorem phaseIssue_regNames (cfg : SystemConfig) (s : SimulationState) :
    (phaseIssue cfg s).registers.map (fun r => r.name) =
      s.registers.map (fun r => r.name) := by
  rcases phaseIssue_cases cfg s with ⟨-, h⟩ | ⟨-, idx, -, h⟩ | ⟨-, -, -, h⟩ |
    ⟨-, t, -, -, h⟩ <;> rw [h]
  · exact issueGo_regNames ..
  · exact issueGo_regNames ..

/-- C10: the set of register names is fixed at initialization and never
changes across steps; an operand naming a register absent from the file
resolves to value 0 with no tag; and a destination register absent from the
file receives no register-alias-table update at issue, so the instruction's
result is silently discarded. -/
theorem c10_register_file :
    (∀ (cfg : SystemConfig) (lbl : List (String × Nat)) (s : SimulationState),
      (nextCycle cfg lbl s).registers.map (fun r => r.name) =
        s.registers.map (fun r => r.name)) ∧
    (∀ (s : SimulationState) (n : String),
      lookupReg s.registers n = none → resolveOperand s n = (some 0, none)) ∧
    (∀ (cfg : SystemConfig) (s : SimulationState) (idx : Nat) (inst : InstructionLine)
        (fIdx : Nat),
      lookupReg s.registers inst.dest = none →
        (issueCommit cfg s idx inst fIdx).registers = s.registers) := by
  refine ⟨?_, ?_, ?_⟩
  · intro cfg lbl s
    unfold nextCycle
    split
    · rfl
    · unfold stepCore
      rw [finishCheck_registers, phaseIssue_regNames, execPhase_registers,
        phaseWrite_regNames]
  · intro s n hlook
    unfold resolveOperand
    rw [hlook]
  · intro cfg s idx inst fIdx hlook
    rw [issueCommit_registers]
    split
    · rw [hlook]
    · rfl

/-- Witness for C10 at concrete inputs: one step of the empty program keeps
the (empty) register file; resolving the absent register "R9" yields value 0
and no tag; committing an instruction whose destination is absent leaves the
registers unchanged. -/
theorem c10_register_file_witness :
    (nextCycle cfg0 [] (initializeState [] cfg0 [])).registers.map (fun r => r.name) =
        (initializeState [] cfg0 []).registers.map (fun r => r.name) ∧
      resolveOperand (initializeState [] cfg0 []) "R9" = (some 0, none) ∧
      (issueCommit cfg0 (initializeState [] cfg0 []) 0 default 0).registers =
        (initializeState [] cfg0 []).registers :=
  ⟨c10_register_file.1 cfg0 [] (initializeState [] cfg0 []),
   c10_register_file.2.1 (initializeState [] cfg0 []) "R9" (by decide),
   c10_register_file.2.2 cfg0 (initializeState [] cfg0 []) 0 default 0 (by decide)⟩

/-! ### Claim C4 -/

theorem memHazard_iff (s : SimulationState) (candId : Nat) (addr : Option ℚ) (cand : OpType)
    (hnodup : (s.instructions.map (fun i => i.id)).Nodup) :
    (memHazard s candId addr cand = true ↔
      ∃ c ∈ s.reservationStations, c.busy = true ∧
        ∃ e ∈ s.instructions, c.instId = some e.id ∧ e.id < candId ∧ c.a = addr ∧
          ((cand = .LOAD ∧ getOpType e.op = .STORE) ∨
            (cand = .STORE ∧ (getOpType e.op = .LOAD ∨ getOpType e.op = .STORE)))) := by
  unfold memHazard
  rw [List.any_eq_true]
  constructor
  · rintro ⟨c, hc, hpred⟩
    refine ⟨c, hc, ?_⟩
    rw [Bool.and_eq_true] at hpred
    obtain ⟨hbusy, hrest⟩ := hpred
    refine ⟨hbusy, ?_⟩
    cases hcid : c.instId with
    | none => rw [hcid] at hrest; cases hrest
    | some cid =>
      rw [hcid] at hrest
      simp only [Bool.and_eq_true, Bool.or_eq_true, decide_eq_true_eq, beq_iff_eq] at hrest
      obtain ⟨⟨hlt, ha⟩, hcombo⟩ := hrest
      cases hfind : s.instructions.find? (fun ins => ins.id = cid) with
      | none =>
        rw [hfind] at hcombo
        rcases hcombo with ⟨-, h2⟩ | ⟨-, h2 | h2⟩ <;> cases h2
      | some ci =>
        rw [hfind] at hcombo
        have hci := List.find?_some hfind
        simp only [decide_eq_true_eq] at hci
        refine ⟨ci, List.mem_of_find?_eq_some hfind, by simp [hcid, hci], hci ▸ hlt, ha, ?_⟩
        exact hcombo
  · rintro ⟨c, hc, hbusy, e, he, hcid, hlt, ha, hcombo⟩
    refine ⟨c, hc, ?_⟩
    rw [Bool.and_eq_true]
    refine ⟨hbusy, ?_⟩
    rw [hcid]
    simp only [Bool.and_eq_true, Bool.or_eq_true, decide_eq_true_eq, beq_iff_eq]
    refine ⟨⟨hlt, ha⟩, ?_⟩
    cases hfind : s.instructions.find? (fun ins => ins.id = e.id) with
    | none =>
      exact absurd (by simp : decide (e.id = e.id) = true)
        (List.find?_eq_none.mp hfind e he)
    | some ci =>
      have hci := List.find?_some hfind
      simp only [decide_eq_true_eq] at hci
      have : ci = e :=
        List.inj_on_of_nodup_map hnodup (List.mem_of_find?_eq_some hfind) he hci
      rw [this]
      exact hcombo

/-- C4: at issue of a LOAD or STORE whose effective address is resolved, the
memory-disambiguation stall is raised if and only if some busy reservation
station bound to an earlier (smaller identity) instruction holds the same
resolved address and the opcode pair is LOAD-after-STORE, STORE-after-LOAD or
STORE-after-STORE; and a raised stall prevents the issue (the state is
returned unchanged). -/
theorem c4_memory_disambiguation (s : SimulationState) (inst : InstructionLine) (addr : ℚ)
    (hmem : getOpType inst.op = .LOAD ∨ getOpType inst.op = .STORE)
    (haddr : issueEffAddr s inst = (some addr, false))
    (hnodup : (s.instructions.map (fun i => i.id)).Nodup) :
    (issueStall s inst = true ↔
      ∃ c ∈ s.reservationStations, c.busy = true ∧
        ∃ e ∈ s.instructions, c.instId = some e.id ∧ e.id < inst.id ∧ c.a = some addr ∧
          ((getOpType inst.op = .LOAD ∧ getOpType e.op = .STORE) ∨
            (getOpType inst.op = .STORE ∧
              (getOpType e.op = .LOAD ∨ getOpType e.op = .STORE)))) ∧
    (∀ (cfg : SystemConfig) (idx : Nat),
      issueStall s inst = true → issueGo cfg s idx inst = s) := by
  constructor
  · have hstall : issueStall s inst =
        memHazard s inst.id (some addr) (getOpType inst.op) := by
      unfold issueStall
      rw [haddr]
      simp [hmem]
    rw [hstall]
    exact memHazard_iff s inst.id (some addr) (getOpType inst.op) hnodup
  · intro cfg idx hs
    unfold issueGo
    rw [if_pos hs]

/-- Fixture: an in-flight store `S.D F0, 0(R1)` already issued and occupying
the store station. -/
def instStoreF : InstructionLine :=
  { id := 0, raw := "S.D F0, 0(R1)", op := "S.D", dest := "F0", src1 := "R1", src2 := "0",
    immediate := 0, pcAddress := 0, issueCycle := some 1, execStartCycle := none,
    execEndCycle := none, writeCycle := none }

/-- Fixture: the following load `L.D F2, 0(R1)` to the same address. -/
def instLoadF : InstructionLine :=
  { id := 1, raw := "L.D F2, 0(R1)", op := "L.D", dest := "F2", src1 := "R1", src2 := "0",
    immediate := 0, pcAddress := 4, issueCycle := none, execStartCycle := none,
    execEndCycle := none, writeCycle := none }

/-- Fixture: the store station holding the resolved address of `instStoreF`. -/
def stStoreF : ReservationStation :=
  { id := "S1", type := .STORE, busy := true, op := some "S.D", vj := none, vk := some 0,
    qj := none, qk := none, a := some ((8 : ℚ) + 0), instId := some 0, timeLeft := 2,
    result := none }

/-- Fixture: the state in which `instLoadF` is considered for issue while
`instStoreF` occupies the store station with the same resolved address. -/
def sC4 : SimulationState :=
  { cycle := 2, pc := 4, instructions := [instStoreF, instLoadF],
    reservationStations := [stStoreF],
    registers := [{ name := "R1", value := 8, qi := none },
                  { name := "F0", value := 0, qi := none },
                  { name := "F2", value := 0, qi := none }],
    memory := fun _ => 0, cache := [], cdb := none, isFinished := false,
    branchStall := false }

/-- Witness for C4 at the concrete scenario `S.D F0, 0(R1); L.D F2, 0(R1)`
with the same resolved address: the load's issue stalls. -/
theorem c4_memory_disambiguation_witness : issueStall sC4 instLoadF = true :=
  ((c4_memory_disambiguation sC4 instLoadF ((8 : ℚ) + 0) (Or.inl (by decide)) rfl
      (by decide)).1).mpr
    ⟨stStoreF, List.mem_singleton.mpr rfl, rfl, instStoreF,
     List.mem_cons_self instStoreF [instLoadF], rfl, by decide, rfl,
     Or.inl ⟨by decide, by decide⟩⟩

/-! ### Claim C5 -/

/-- C5: when a LOAD or STORE is considered for issue with its base register
present in the register file: a tagged base whose tag is on this cycle's CDB
gives effective address `cdb.value + offset`; a tagged base whose tag is not
broadcast stalls the issue (the state is returned unchanged, so the
instruction does not issue this cycle); an untagged base gives
`baseReg.value + offset`. -/
theorem c5_address_computation (s : SimulationState) (base : String) (off : ℚ)
    (reg : Register) (hreg : lookupReg s.registers base = some reg) :
    (∀ tag c, reg.qi = some tag → s.cdb = some c → c.tag = tag →
      resolveBase s base off = (some (c.value + off), false)) ∧
    (∀ tag, reg.qi = some tag → (∀ c, s.cdb = some c → c.tag ≠ tag) →
      resolveBase s base off = (none, true) ∧
        ∀ (cfg : SystemConfig) (idx : Nat) (inst : InstructionLine),
          inst.src1 = base → inst.immediate = off →
          (getOpType inst.op = .LOAD ∨ getOpType inst.op = .STORE) →
          issueGo cfg s idx inst = s) ∧
    (reg.qi = none → resolveBase s base off = (some (reg.value + off), false)) := by
  refine ⟨?_, ?_, ?_⟩
  · intro tag c hqi hcdb htag
    unfold resolveBase
    simp only [hreg, hqi, hcdb]
    rw [if_pos htag]
  · intro tag hqi hnc
    have hrb : resolveBase s base off = (none, true) := by
      unfold resolveBase
      simp only [hreg, hqi]
      cases hcdb : s.cdb with
      | none => rfl
      | some c => exact if_neg (hnc c hcdb)
    refine ⟨hrb, ?_⟩
    intro cfg idx inst hsrc himm hmem
    have hstall : issueStall s inst = true := by
      unfold issueStall issueEffAddr
      rw [if_pos hmem, hsrc, himm, hrb]
      simp
    unfold issueGo
    rw [if_pos hstall]
  · intro hqi
    unfold resolveBase
    simp only [hreg, hqi]

/-- Fixture: a state whose base register R1 is renamed to tag "L1" while the
CDB is broadcasting that very tag. -/
def sC5 : SimulationState :=
  { cycle := 3, pc := 0, instructions := [],
    reservationStations := [],
    registers := [{ name := "R1", value := 5, qi := some "L1" }],
    memory := fun _ => 0, cache := [], cdb := some { tag := "L1", value := 7 },
    isFinished := false, branchStall := false }

/-- Witness for C5 at a concrete input: with R1 tagged "L1" and the CDB
broadcasting ("L1", 7), the effective address for offset 3 is `7 + 3`. -/
theorem c5_address_computation_witness :
    resolveBase sC5 "R1" 3 = (some ((7 : ℚ) + 3), false) :=
  (c5_address_computation sC5 "R1" 3 { name := "R1", value := 5, qi := some "L1" }
      rfl).1 "L1" { tag := "L1", value := 7 } rfl rfl rfl

/-! ### Claim C8: LRU sort lemmas -/

/-- Keep the current minimum, preferring the earlier block on ties. -/
def minKeep (m : Option CacheBlock) (x : CacheBlock) : Option CacheBlock :=
  match m with
  | none => some x
  | some m1 => if m1.lastAccess ≤ x.lastAccess then some m1 else some x

/-- The first block of minimal `lastAccess`, scanning left to right. -/
def firstMin (l : List CacheBlock) : Option CacheBlock := l.foldl minKeep none

theorem head?_lruInsert (x : CacheBlock) (acc : List CacheBlock) :
    (lruInsert x acc).head? = minKeep acc.head? x := by
  cases acc with
  | nil => rfl
  | cons c cs =>
    unfold lruInsert
    split <;> rename_i h <;> simp [minKeep, h]

theorem head?_sort_go :
    ∀ (l acc : List CacheBlock),
      ((l.foldl (fun a x => lruInsert x a) acc).head?) = l.foldl minKeep acc.head? := by
  intro l
  induction l with
  | nil => intro acc; rfl
  | cons x xs ih =>
    intro acc
    have h1 : ((x :: xs).foldl (fun a y => lruInsert y a) acc) =
        xs.foldl (fun a y => lruInsert y a) (lruInsert x acc) := rfl
    rw [h1, ih, head?_lruInsert]
    rfl

theorem head?_sortByLastAccess (l : List CacheBlock) :
    (sortByLastAccess l).head? = firstMin l :=
  head?_sort_go l []

theorem minKeep_le (m0 x : CacheBlock) (h : m0.lastAccess ≤ x.lastAccess) :
    minKeep (some m0) x = some m0 := by
  simp only [minKeep]
  rw [if_pos h]

theorem minKeep_gt (m0 x : CacheBlock) (h : ¬m0.lastAccess ≤ x.lastAccess) :
    minKeep (some m0) x = some x := by
  simp only [minKeep]
  rw [if_neg h]

theorem minKeep_go_spec :
    ∀ (l : List CacheBlock) (m0 : CacheBlock),
      ∃ m, l.foldl minKeep (some m0) = some m ∧
        ((m = m0 ∧ ∀ b ∈ l, m0.lastAccess ≤ b.lastAccess) ∨
          (∃ l1 l2, l = l1 ++ m :: l2 ∧ m.lastAccess < m0.lastAccess ∧
            (∀ b ∈ l1, m.lastAccess < b.lastAccess) ∧
            (∀ b ∈ l, m.lastAccess ≤ b.lastAccess))) := by
  intro l
  induction l with
  | nil => exact fun m0 => ⟨m0, rfl, Or.inl ⟨rfl, by simp⟩⟩
  | cons x xs ih =>
    intro m0
    by_cases hx : m0.lastAccess ≤ x.lastAccess
    · have h1 : (x :: xs).foldl minKeep (some m0) = xs.foldl minKeep (some m0) := by
        rw [List.foldl_cons, minKeep_le m0 x hx]
      obtain ⟨m, hm, hcase⟩ := ih m0
      refine ⟨m, h1 ▸ hm, ?_⟩
      rcases hcase with ⟨he, hall⟩ | ⟨l1, l2, hsplit, hlt, hpre, hall⟩
      · left
        refine ⟨he, ?_⟩
        intro b hb
        rcases List.mem_cons.mp hb with h | h
        · exact h ▸ hx
        · exact hall b h
      · right
        refine ⟨x :: l1, l2, by simp [hsplit], hlt, ?_, ?_⟩
        · intro b hb
          rcases List.mem_cons.mp hb with h | h
          · exact h ▸ lt_of_lt_of_le hlt hx
          · exact hpre b h
        · intro b hb
          rcases List.mem_cons.mp hb with h | h
          · exact h ▸ le_of_lt (lt_of_lt_of_le hlt hx)
          · exact hall b h
    · have hx' : x.lastAccess < m0.lastAccess := Nat.lt_of_not_le hx
      have h1 : (x :: xs).foldl minKeep (some m0) = xs.foldl minKeep (some x) := by
        rw [List.foldl_cons, minKeep_gt m0 x hx]
      obtain ⟨m, hm, hcase⟩ := ih x
      refine ⟨m, h1 ▸ hm, ?_⟩
      rcases hcase with ⟨he, hall⟩ | ⟨l1, l2, hsplit, hlt, hpre, hall⟩
      · right
        refine ⟨[], xs, by simp [he], he ▸ hx', by simp, ?_⟩
        intro b hb
        rcases List.mem_cons.mp hb with h | h
        · exact h ▸ le_of_eq (by rw [he])
        · exact he ▸ hall b h
      · right
        refine ⟨x :: l1, l2, by simp [hsplit], lt_trans hlt hx', ?_, ?_⟩
        · intro b hb
          rcases List.mem_cons.mp hb with h | h
          · exact h ▸ hlt
          · exact hpre b h
        · intro b hb
          rcases List.mem_cons.mp hb with h | h
          · exact h ▸ le_of_lt hlt
          · exact hall b h

theorem firstMin_first (l : List CacheBlock) (hne : l ≠ []) :
    ∃ m l1 l2, firstMin l = some m ∧ l = l1 ++ m :: l2 ∧
      (∀ b ∈ l1, m.lastAccess < b.lastAccess) ∧
      (∀ b ∈ l, m.lastAccess ≤ b.lastAccess) := by
  cases l with
  | nil => exact absurd rfl hne
  | cons c cs =>
    obtain ⟨m, hm, hcase⟩ := minKeep_go_spec cs c
    have hfm : firstMin (c :: cs) = some m := by
      unfold firstMin
      simpa using hm
    rcases hcase with ⟨he, hall⟩ | ⟨l1, l2, hsplit, hlt, hpre, hall⟩
    · refine ⟨m, [], cs, hfm, by simp [he], by simp, ?_⟩
      intro b hb
      rcases List.mem_cons.mp hb with h | h
      · exact h ▸ he ▸ le_refl _
      · exact he ▸ hall b h
    · refine ⟨m, c :: l1, l2, hfm, by simp [hsplit], ?_, ?_⟩
      · intro b hb
        rcases List.mem_cons.mp hb with h | h
        · exact h ▸ hlt
        · exact hpre b h
      · intro b hb
        rcases List.mem_cons.mp hb with h | h
        · exact h ▸ le_of_lt hlt
        · exact hall b h

theorem lruInsert_perm (x : CacheBlock) (l : List CacheBlock) :
    (lruInsert x l).Perm (x :: l) := by
  induction l with
  | nil => exact List.Perm.refl _
  | cons c cs ih =>
    unfold lruInsert
    split
    · exact ((ih.cons c).trans (List.Perm.swap x c cs))
    · exact List.Perm.refl _

theorem sort_go_perm :
    ∀ (l acc : List CacheBlock),
      (l.foldl (fun a y => lruInsert y a) acc).Perm (acc ++ l) := by
  intro l
  induction l with
  | nil => intro acc; simp
  | cons x xs ih =>
    intro acc
    have h1 : ((x :: xs).foldl (fun a y => lruInsert y a) acc) =
        xs.foldl (fun a y => lruInsert y a) (lruInsert x acc) := rfl
    rw [h1]
    refine (ih (lruInsert x acc)).trans ?_
    have h2 : (lruInsert x acc ++ xs).Perm ((x :: acc) ++ xs) :=
      (lruInsert_perm x acc).append_right xs
    refine h2.trans ?_
    have h3 : ((x :: acc) ++ xs).Perm (acc ++ (x :: xs)) := by
      simpa using List.perm_middle.symm
    simpa using h3

theorem sortByLastAccess_perm (l : List CacheBlock) : (sortByLastAccess l).Perm l :=
  sort_go_perm l []

/-- C8: the cache lookup. Disabled: a hit with penalty 0 and an unchanged
cache. Enabled hit (a block with tag ⌊address ÷ blockSize⌋ exists): penalty 0
and only that (first such) block's last-access updated to the current cycle.
Enabled miss: penalty is the configured miss penalty and a new block is
inserted; below capacity it is appended, at capacity the first block of
minimal last-access (ties broken by list order) is evicted and the rest
survive as a permutation; the cache never exceeds `cacheSize ÷ blockSize`
blocks. -/
theorem c8_cache_lookup (cfg : SystemConfig) (addr : ℚ) (cache : List CacheBlock)
    (cycle : Nat) (k : Nat) (hk : cfg.cache.cacheSize = k * cfg.cache.blockSize)
    (hbs : 0 < cfg.cache.blockSize) (hpos : 0 < k) (hlen : cache.length ≤ k) :
    (cfg.cache.enabled = false → accessCache addr cfg cache cycle = (true, 0, cache)) ∧
    (cfg.cache.enabled = true →
      ((accessCache addr cfg cache cycle).1 = true ↔
        ∃ b ∈ cache, b.tag = ⌊addr / (cfg.cache.blockSize : ℚ)⌋) ∧
      (∀ i, cache.findIdx? (fun b => b.tag = ⌊addr / (cfg.cache.blockSize : ℚ)⌋) = some i →
        accessCache addr cfg cache cycle =
          (true, 0, cache.set i { cache.getD i default with lastAccess := cycle })) ∧
      (cache.findIdx? (fun b => b.tag = ⌊addr / (cfg.cache.blockSize : ℚ)⌋) = none →
        (accessCache addr cfg cache cycle).1 = false ∧
        (accessCache addr cfg cache cycle).2.1 = cfg.cache.missPenalty ∧
        (cache.length < k →
          (accessCache addr cfg cache cycle).2.2 =
            cache ++ [{ tag := ⌊addr / (cfg.cache.blockSize : ℚ)⌋, valid := true, data := [],
                        lastAccess := cycle }]) ∧
        (cache.length = k →
          ∃ ev rest, cache.Perm (ev :: rest) ∧
            (accessCache addr cfg cache cycle).2.2 =
              { tag := ⌊addr / (cfg.cache.blockSize : ℚ)⌋, valid := true, data := [],
                lastAccess := cycle } :: rest ∧
            (∀ b ∈ cache, ev.lastAccess ≤ b.lastAccess) ∧
            (∃ l1 l2, cache = l1 ++ ev :: l2 ∧ ∀ b ∈ l1, ev.lastAccess < b.lastAccess)) ∧
        (accessCache addr cfg cache cycle).2.2.length ≤ k)) := by
  have hmb : (cfg.cache.cacheSize : ℚ) / (cfg.cache.blockSize : ℚ) = (k : ℚ) := by
    rw [hk]
    push_cast
    rw [mul_div_assoc, div_self (by exact_mod_cast hbs.ne')]
    ring
  constructor
  · intro hoff
    unfold accessCache
    rw [if_pos (by rw [hoff])]
  · intro hon
    have hoff : ¬cfg.cache.enabled = false := by rw [hon]; simp
    refine ⟨?_, ?_, ?_⟩
    · unfold accessCache
      rw [if_neg hoff]
      cases hidx : cache.findIdx? (fun b => b.tag = ⌊addr / (cfg.cache.blockSize : ℚ)⌋) with
      | some i =>
        simp only [hidx]
        obtain ⟨hi, hp, -⟩ := findIdx?_spec (default : CacheBlock) hidx
        simp only [decide_eq_true_eq] at hp
        constructor
        · intro _
          exact ⟨cache.getD i default, by
            rw [List.getD_eq_getElem?_getD, List.getElem?_eq_getElem hi]
            exact List.getElem_mem _, hp⟩
        · intro _
          trivial
      | none =>
        simp only [hidx]
        have hnone := List.findIdx?_eq_none_iff.mp hidx
        constructor
        · intro hx
          split at hx <;> cases hx
        · rintro ⟨b, hb, htag⟩
          have := hnone b hb
          simp only [decide_eq_true_eq] at this
          exact absurd htag (by simpa using this)
    · intro i hidx
      unfold accessCache
      rw [if_neg hoff]
      simp only [hidx]
    · intro hidx
      unfold accessCache
      rw [if_neg hoff]
      simp only [hidx]
      have hcast : ((cache.length : ℚ) <
          (cfg.cache.cacheSize : ℚ) / (cfg.cache.blockSize : ℚ)) ↔ cache.length < k := by
        rw [hmb]
        exact_mod_cast Iff.rfl
      by_cases hlt : cache.length < k
      · rw [if_pos (hcast.mpr hlt)]
        refine ⟨rfl, rfl, fun _ => rfl, fun heq => absurd heq (by omega), ?_⟩
        simp only [List.length_append, List.length_cons, List.length_nil]
        omega
      · have hel : cache.length = k := by omega
        rw [if_neg (fun hx => hlt (hcast.mp hx))]
        have hne : cache ≠ [] := by
          intro hnil
          rw [hnil] at hel
          simp at hel
          omega
        obtain ⟨m, l1, l2, hfm, hsplit, hpre, hall⟩ := firstMin_first cache hne
        have hperm := sortByLastAccess_perm cache
        have hhead : (sortByLastAccess cache).head? = some m := by
          rw [head?_sortByLastAccess, hfm]
        cases hsort : sortByLastAccess cache with
        | nil => rw [hsort] at hhead; cases hhead
        | cons m' rest =>
          rw [hsort] at hhead
          have hm' : m' = m := by
            simp only [List.head?_cons, Option.some_inj] at hhead
            exact hhead
          subst hm'
          rw [hsort] at hperm
          refine ⟨rfl, rfl, fun hx => absurd hx hlt, ?_, ?_⟩
          · intro _
            exact ⟨m', rest, hperm.symm, rfl, hall, ⟨l1, l2, hsplit, hpre⟩⟩
          · simp only [List.length_cons, List.tail_cons]
            have hl2 : (m' :: rest).length = cache.length := hperm.length_eq
            simp only [List.length_cons] at hl2
            omega

/-- Witness for C8 at a concrete input: with the cache disabled, a lookup is
a hit with penalty 0 and leaves the cache unchanged. -/
theorem c8_cache_lookup_witness : accessCache 0 cfg0 [] 3 = (true, 0, []) :=
  (c8_cache_lookup cfg0 0 [] 3 4 (by decide) (by decide) (by decide) (by decide)).1 rfl

/-! ### Claim C1 -/

theorem phaseWrite_cdb_found (s : SimulationState) (pIdx : Nat)
    (h : s.reservationStations.findIdx? readyRS = some pIdx) :
    (phaseWrite s).cdb =
      some { tag := (s.reservationStations.getD pIdx default).id,
             value := (s.reservationStations.getD pIdx default).result.getD 0 } := by
  unfold phaseWrite
  rw [h]

/-- C1 (amended): in the write-back phase of every step, the station selected
to broadcast on the CDB is the first station in reservation-station list
order (ADD, MULT, LOAD, STORE, INTEGER, each by ordinal) among those that are
busy with remaining-time 0 and a non-null result, irrespective of the bound
instruction identities. -/
theorem c1_first_ready_broadcasts (cfg : SystemConfig) (lbl : List (String × Nat))
    (s : SimulationState) (pIdx : Nat) (hf : s.isFinished = false)
    (hidx : s.reservationStations.findIdx? readyRS = some pIdx) :
    (nextCycle cfg lbl s).cdb =
      some { tag := (s.reservationStations.getD pIdx default).id,
             value := (s.reservationStations.getD pIdx default).result.getD 0 } ∧
    readyRS (s.reservationStations.getD pIdx default) = true ∧
    ∀ j, j < pIdx → readyRS (s.reservationStations.getD j default) = false := by
  obtain ⟨-, hp, hfirst⟩ := findIdx?_spec (default : ReservationStation) hidx
  have hn : nextCycle cfg lbl s = finishCheck (stepCore cfg lbl s) := by
    unfold nextCycle
    rw [if_neg (by simp [hf])]
  refine ⟨?_, hp, hfirst⟩
  rw [hn]
  unfold stepCore
  rw [finishCheck_cdb, phaseIssue_cdb, execPhase_cdb]
  exact phaseWrite_cdb_found _ pIdx hidx

/-- Fixture: an ADD station whose bound instruction has identity 5, ready to
write back. -/
def stA1F : ReservationStation :=
  { id := "A1", type := .ADD, busy := true, op := some "ADD.D", vj := some 0, vk := some 0,
    qj := none, qk := none, a := none, instId := some 5, timeLeft := 0, result := some 1 }

/-- Fixture: a MULT station whose bound instruction has identity 2, also
ready to write back in the same cycle. -/
def stM1F : ReservationStation :=
  { id := "M1", type := .MULT, busy := true, op := some "MUL.D", vj := some 0, vk := some 0,
    qj := none, qk := none, a := none, instId := some 2, timeLeft := 0, result := some 2 }

/-- Fixture: a state with two simultaneously ready stations where the one
earlier in station order (A1) is bound to the larger instruction identity. -/
def sC1 : SimulationState :=
  { cycle := 4, pc := 100,
    instructions :=
      [{ id := 2, raw := "MUL.D F0, F2, F4", op := "MUL.D", dest := "F0", src1 := "F2",
         src2 := "F4", immediate := 0, pcAddress := 0, issueCycle := some 1,
         execStartCycle := some 2, execEndCycle := some 3, writeCycle := none },
       { id := 5, raw := "ADD.D F6, F8, F2", op := "ADD.D", dest := "F6", src1 := "F8",
         src2 := "F2", immediate := 0, pcAddress := 4, issueCycle := some 2,
         execStartCycle := some 3, execEndCycle := some 4, writeCycle := none }],
    reservationStations := [stA1F, stM1F],
    registers := [], memory := fun _ => 0, cache := [], cdb := none,
    isFinished := false, branchStall := false }

/-- Counterexample to C1 as stated: both stations are ready; the station
bound to the smallest instruction identity is M1 (identity 2), yet the code
broadcasts A1 (identity 5), the first ready station in list order. -/
theorem c1_counterexample :
    (nextCycle cfg0 [] sC1).cdb = some { tag := "A1", value := 1 } ∧
    readyRS stA1F = true ∧ readyRS stM1F = true ∧
    stA1F.instId = some 5 ∧ stM1F.instId = some 2 ∧ (2 : Nat) < 5 := by
  refine ⟨by decide, by decide, by decide, by decide, by decide, by decide⟩

/-- Witness for the amended C1 at the same concrete state: the first ready
station (position 0, id "A1") is the broadcaster. -/
theorem c1_first_ready_broadcasts_witness :
    (nextCycle cfg0 [] sC1).cdb =
      some { tag := (sC1.reservationStations.getD 0 default).id,
             value := (sC1.reservationStations.getD 0 default).result.getD 0 } ∧
    readyRS (sC1.reservationStations.getD 0 default) = true ∧
    (∀ j, j < 0 → readyRS (sC1.reservationStations.getD j default) = false) :=
  c1_first_ready_broadcasts cfg0 [] sC1 0 rfl (by decide)

/-! ### Claim C3 -/

theorem set_last_append {α : Type _} :
    ∀ (l : List α) (x y : α), (l ++ [x]).set l.length y = l ++ [y]
  | [], _, _ => rfl
  | a :: as, x, y => by
    simp only [List.cons_append, List.set_cons_succ, List.length_cons]
    rw [set_last_append as x y]

theorem getD_last_append {α : Type _} :
    ∀ (l : List α) (x d : α), (l ++ [x]).getD l.length d = x
  | [], _, _ => rfl
  | a :: as, x, d => by
    simp only [List.cons_append, List.length_cons, List.getD_cons_succ]
    exact getD_last_append as x d

theorem issueGo_instr_length (cfg : SystemConfig) (s : SimulationState) (idx : Nat)
    (inst : InstructionLine) :
    (issueGo cfg s idx inst).instructions.length = s.instructions.length := by
  rcases issueGo_cases cfg s idx inst with h | ⟨-, fIdx, -, h⟩ <;> rw [h]
  rw [issueCommit_instructions, List.length_set]

/-- C3 (amended): during the issue phase, a new dynamic instance is appended
to the dynamic instruction list exactly when no un-issued instance exists at
the current PC and some dynamic instance (retired or not — the code never
checks writeCycle) exists at that PC; the appended instance is the clone of
the first instance at that PC with a fresh identity (one past the maximal id)
and all four timestamps null, possibly receiving its issue stamp in the same
cycle. -/
theorem c3_loop_reentry (cfg : SystemConfig) (s : SimulationState)
    (hbs : s.branchStall = false) :
    ((phaseIssue cfg s).instructions.length = s.instructions.length + 1 ↔
      (s.instructions.findIdx? (fun i => i.pcAddress = s.pc && i.issueCycle = none) = none ∧
        ∃ t, s.instructions.find? (fun i => i.pcAddress = s.pc) = some t)) ∧
    (∀ t, s.instructions.findIdx? (fun i => i.pcAddress = s.pc && i.issueCycle = none) = none →
      s.instructions.find? (fun i => i.pcAddress = s.pc) = some t →
      ((phaseIssue cfg s).instructions = s.instructions ++ [cloneInst s t] ∨
        (phaseIssue cfg s).instructions =
          s.instructions ++ [{ cloneInst s t with issueCycle := some s.cycle }])) := by
  have hnotbs : ¬s.branchStall = true := by simp [hbs]
  constructor
  · constructor
    · intro hlen
      rcases phaseIssue_cases cfg s with ⟨hb, -⟩ | ⟨-, idx, hidx, h⟩ | ⟨-, hidx, hfind, h⟩ |
        ⟨-, t, hidx, hfind, h⟩
      · exact absurd hb hnotbs
      · rw [h] at hlen
        unfold issueAttempt at hlen
        rw [issueGo_instr_length] at hlen
        omega
      · rw [h] at hlen
        omega
      · exact ⟨hidx, t, hfind⟩
    · rintro ⟨hidx, t, hfind⟩
      unfold phaseIssue
      rw [if_neg hnotbs, hidx, hfind]
      unfold issueAttempt
      rw [issueGo_instr_length]
      simp
  · intro t hidx hfind
    rcases phaseIssue_cases cfg s with ⟨hb, -⟩ | ⟨-, idx, hidx2, -⟩ | ⟨-, -, hfind2, -⟩ |
      ⟨-, t2, -, hfind2, h⟩
    · exact absurd hb hnotbs
    · rw [hidx] at hidx2
      cases hidx2
    · rw [hfind] at hfind2
      cases hfind2
    · rw [hfind] at hfind2
      injection hfind2 with ht
      subst ht
      rw [h]
      unfold issueAttempt
      have hproj : ({ s with instructions := s.instructions ++ [cloneInst s t] } :
          SimulationState).instructions = s.instructions ++ [cloneInst s t] := rfl
      rcases issueGo_cases cfg
          ({ s with instructions := s.instructions ++ [cloneInst s t] })
          s.instructions.length
          (({ s with instructions := s.instructions ++ [cloneInst s t] } :
            SimulationState).instructions.getD s.instructions.length default) with
        h1 | ⟨-, fIdx, -, h1⟩
      · left
        rw [h1]
      · right
        rw [h1, issueCommit_instructions]
        simp only [hproj]
        rw [getD_last_append]
        exact set_last_append s.instructions (cloneInst s t)
          { cloneInst s t with issueCycle := some s.cycle }

/-- Fixture: an instruction at PC 0 that has issued but is not yet retired
(its writeCycle is null, it is still executing). -/
def inst0C3 : InstructionLine :=
  { id := 0, raw := "ADD.D F6, F8, F2", op := "ADD.D", dest := "F6", src1 := "F8",
    src2 := "F2", immediate := 0, pcAddress := 0, issueCycle := some 1,
    execStartCycle := some 2, execEndCycle := none, writeCycle := none }

/-- Fixture: the state in which the PC points back at `inst0C3` (say after a
resolved branch) while it is still mid-execution in station A1. -/
def sC3 : SimulationState :=
  { cycle := 3, pc := 0, instructions := [inst0C3],
    reservationStations :=
      [{ id := "A1", type := .ADD, busy := true, op := some "ADD.D", vj := some 0,
         vk := some 0, qj := none, qk := none, a := none, instId := some 0,
         timeLeft := 5, result := none }],
    registers := [], memory := fun _ => 0, cache := [], cdb := none,
    isFinished := false, branchStall := false }

/-- Counterexample to C3 as stated: the only dynamic instance at PC 0 has a
null writeCycle (not retired), yet the step appends a fresh instance (new
identity 1, null timestamps) at that PC. -/
theorem c3_counterexample :
    (nextCycle cfg0 [] sC3).instructions.map
        (fun i => (i.id, i.pcAddress, i.issueCycle, i.writeCycle)) =
      [(0, 0, some 1, none), (1, 0, none, none)] ∧
    sC3.instructions.all (fun i => !i.writeCycle.isSome) = true := by
  refine ⟨by decide, by decide⟩

/-- Witness for the amended C3 at the same concrete state: since no un-issued
instance exists at PC 0 and `inst0C3` (un-retired) sits there, the issue
phase appends its clone. -/
theorem c3_loop_reentry_witness :
    (phaseIssue cfg0 sC3).instructions = sC3.instructions ++ [cloneInst sC3 inst0C3] ∨
    (phaseIssue cfg0 sC3).instructions =
      sC3.instructions ++ [{ cloneInst sC3 inst0C3 with issueCycle := some sC3.cycle }] :=
  (c3_loop_reentry cfg0 sC3 rfl).2 inst0C3 (by decide) (by decide)

/-! ### Claim C6 -/

/-- The station invariant the code actually maintains: busy exactly when a
bound instruction identity is present; an idle station has no operand values
and no operand tags; a busy station has at most one of (value, tag) per
operand slot.  ("Exactly one" fails: a busy LOAD leaves both `vk` and `qk`
empty.) -/
def InvRS (r : ReservationStation) : Prop :=
  (r.busy = true ↔ r.instId.isSome = true) ∧
  (r.busy = false → r.vj = none ∧ r.qj = none ∧ r.vk = none ∧ r.qk = none) ∧
  (r.busy = true → ¬(r.vj.isSome = true ∧ r.qj.isSome = true) ∧
    ¬(r.vk.isSome = true ∧ r.qk.isSome = true))

instance (r : ReservationStation) : Decidable (InvRS r) := by
  unfold InvRS
  infer_instance

theorem InvRS_clearRS (r : ReservationStation) : InvRS (clearRS r) := by
  simp [InvRS, clearRS]

theorem InvRS_default : InvRS (default : ReservationStation) := by
  refine ⟨by decide, fun _ => by decide, fun hb => by cases hb⟩

theorem InvRS_getD {l : List ReservationStation} (h : ∀ r ∈ l, InvRS r) (i : Nat) :
    InvRS (l.getD i default) := by
  by_cases hi : i < l.length
  · apply h
    rw [List.getD_eq_getElem?_getD, List.getElem?_eq_getElem hi]
    exact List.getElem_mem _
  · rw [List.getD_eq_getElem?_getD, List.getElem?_eq_none (by omega)]
    exact InvRS_default

theorem InvRS_fillQj (tag : String) (v : ℚ) (r : ReservationStation) (h : InvRS r) :
    InvRS (fillQj tag v r) := by
  obtain ⟨h1, h2, h3⟩ := h
  unfold fillQj
  split
  · rename_i hqj
    refine ⟨by simpa using h1, ?_, ?_⟩ <;> intro hb2 <;> simp_all
  · exact ⟨h1, h2, h3⟩

theorem InvRS_fillQk (tag : String) (v : ℚ) (r : ReservationStation) (h : InvRS r) :
    InvRS (fillQk tag v r) := by
  obtain ⟨h1, h2, h3⟩ := h
  unfold fillQk
  split
  · rename_i hqk
    refine ⟨by simpa using h1, ?_, ?_⟩ <;> intro hb2 <;> simp_all
  · exact ⟨h1, h2, h3⟩

theorem InvRS_fill (tag : String) (v : ℚ) (r : ReservationStation) (h : InvRS r) :
    InvRS (fillFromCDB tag v r) := by
  unfold fillFromCDB
  split
  · exact InvRS_fillQk tag v _ (InvRS_fillQj tag v r h)
  · exact h

theorem phaseWrite_inv (s : SimulationState) (h : ∀ r ∈ s.reservationStations, InvRS r) :
    ∀ r ∈ (phaseWrite s).reservationStations, InvRS r := by
  unfold phaseWrite
  split
  · exact h
  · intro r hr
    rcases List.mem_or_eq_of_mem_set hr with hm | he
    · obtain ⟨r0, hr0, he0⟩ := List.mem_map.mp hm
      rw [← he0]
      exact InvRS_fill _ _ r0 (h r0 hr0)
    · rw [he]
      exact InvRS_clearRS _

theorem execStep_inv (cfg : SystemConfig) (lbl : List (String × Nat)) (s : SimulationState)
    (i : Nat) (h : ∀ r ∈ s.reservationStations, InvRS r) :
    ∀ r ∈ (execStep cfg lbl s i).reservationStations, InvRS r := by
  have hst : (execStep cfg lbl s i).reservationStations = (execUpd cfg lbl s i).stations := rfl
  rw [hst]
  rcases execUpd_stations cfg lbl s i with h0 | ⟨t, h0⟩ | ⟨t, r0, h0⟩ <;> rw [h0]
  · exact h
  · intro r hr
    rcases List.mem_or_eq_of_mem_set hr with hm | he
    · exact h r hm
    · rw [he]
      exact InvRS_clearRS _
  · intro r hr
    rcases List.mem_or_eq_of_mem_set hr with hm | he
    · exact h r hm
    · rw [he]
      exact InvRS_getD h i

theorem resolveOperand_shape (s : SimulationState) (n : String) :
    ¬((resolveOperand s n).1.isSome = true ∧ (resolveOperand s n).2.isSome = true) := by
  unfold resolveOperand
  split
  · simp
  · split
    · split
      · split
        · simp
        · simp
      · simp
    · simp

theorem issueCommit_stations (cfg : SystemConfig) (s : SimulationState) (idx : Nat)
    (inst : InstructionLine) (fIdx : Nat) :
    (issueCommit cfg s idx inst fIdx).reservationStations =
      s.reservationStations.set fIdx (issueNewRS s inst fIdx) := rfl

theorem issueOp1_shape (s : SimulationState) (inst : InstructionLine) :
    ¬((issueOp1 s inst).1.isSome = true ∧ (issueOp1 s inst).2.isSome = true) := by
  unfold issueOp1
  split
  · split
    · exact resolveOperand_shape _ _
    · simp
  · split
    · exact resolveOperand_shape _ _
    · simp

theorem issueOp2_shape (s : SimulationState) (inst : InstructionLine) :
    ¬((issueOp2 s inst).1.1.isSome = true ∧ (issueOp2 s inst).1.2.isSome = true) := by
  unfold issueOp2
  split
  · exact resolveOperand_shape _ _
  · split
    · split
      · exact resolveOperand_shape _ _
      · simp
    · split
      · simp
      · split
        · exact resolveOperand_shape _ _
        · simp

theorem InvRS_newRS (s : SimulationState) (inst : InstructionLine) (fIdx : Nat) :
    InvRS (issueNewRS s inst fIdx) := by
  refine ⟨by simp [issueNewRS], fun hb => ?_, fun _ => ⟨?_, ?_⟩⟩
  · simp [issueNewRS] at hb
  · simpa [issueNewRS] using issueOp1_shape s inst
  · simpa [issueNewRS] using issueOp2_shape s inst

theorem issueGo_inv (cfg : SystemConfig) (s : SimulationState) (idx : Nat)
    (inst : InstructionLine) (h : ∀ r ∈ s.reservationStations, InvRS r) :
    ∀ r ∈ (issueGo cfg s idx inst).reservationStations, InvRS r := by
  rcases issueGo_cases cfg s idx inst with h0 | ⟨-, fIdx, -, h0⟩ <;> rw [h0]
  · exact h
  · rw [issueCommit_stations]
    intro r hr
    rcases List.mem_or_eq_of_mem_set hr with hm | he
    · exact h r hm
    · rw [he]
      exact InvRS_newRS ..

theorem phaseIssue_inv (cfg : SystemConfig) (s : SimulationState)
    (h : ∀ r ∈ s.reservationStations, InvRS r) :
    ∀ r ∈ (phaseIssue cfg s).reservationStations, InvRS r := by
  rcases phaseIssue_cases cfg s with ⟨-, h0⟩ | ⟨-, idx, -, h0⟩ | ⟨-, -, -, h0⟩ |
    ⟨-, t, -, -, h0⟩ <;> rw [h0]
  · exact h
  · exact issueGo_inv _ _ _ _ h
  · exact h
  · exact issueGo_inv _ _ _ _ (fun r hr => h r hr)

theorem execPhase_inv (cfg : SystemConfig) (lbl : List (String × Nat)) (s : SimulationState)
    (h : ∀ r ∈ s.reservationStations, InvRS r) :
    ∀ r ∈ (execPhase cfg lbl s).reservationStations, InvRS r := by
  unfold execPhase
  refine foldl_pres (P := fun st => ∀ r ∈ st.reservationStations, InvRS r) ?_ _ s h
  intro b a hb
  exact execStep_inv cfg lbl b a hb

/-- C6 (amended): after every step from a state whose stations all satisfy
the invariant, every reservation station satisfies: it is busy exactly when
it holds a bound instruction identity; when idle, both operand slots hold
neither a value nor a tag; when busy, each operand slot holds at most one of
(value, tag) — not exactly one, because a busy LOAD leaves its second slot
entirely empty. -/
theorem c6_station_invariant (cfg : SystemConfig) (lbl : List (String × Nat))
    (s : SimulationState) (h : ∀ r ∈ s.reservationStations, InvRS r) :
    ∀ r ∈ (nextCycle cfg lbl s).reservationStations, InvRS r := by
  unfold nextCycle
  split
  · exact h
  · have hst : (finishCheck (stepCore cfg lbl s)).reservationStations =
        (stepCore cfg lbl s).reservationStations := finishCheck_stations _
    rw [hst]
    unfold stepCore
    exact phaseIssue_inv _ _
      (execPhase_inv _ _ _ (phaseWrite_inv _ (fun r hr => h r hr)))

/-- Fixture: a one-instruction load program `L.D F6, 0(R2)`. -/
def instLoadC6 : InstructionLine :=
  { id := 0, raw := "L.D F6, 0(R2)", op := "L.D", dest := "F6", src1 := "R2", src2 := "0",
    immediate := 0, pcAddress := 0, issueCycle := none, execStartCycle := none,
    execEndCycle := none, writeCycle := none }

/-- Fixture: the initial state of the one-load program. -/
def sC6 : SimulationState :=
  initializeState [instLoadC6] cfg0 [("R2", 0), ("F6", 0)]

/-- Counterexample to C6 as stated: after the first step the load occupies
station L1, which is busy while BOTH its second-operand value `vk` and tag
`qk` are null — not exactly one of them present. -/
theorem c6_counterexample :
    ((nextCycle cfg0 [] sC6).reservationStations.find? (fun r => r.busy)).map
        (fun r => (r.id, r.busy, r.vk, r.qk)) = some ("L1", true, none, none) := by
  decide

/-- Witness for the amended C6 at the same concrete program: the invariant
holds for the first station (the busy load buffer L1) after the step from the
(invariant-satisfying) initial state. -/
theorem c6_station_invariant_witness :
    InvRS ((nextCycle cfg0 [] sC6).reservationStations.getD 0 default) :=
  c6_station_invariant cfg0 [] sC6 (by decide)
    ((nextCycle cfg0 [] sC6).reservationStations.getD 0 default) (by decide)

/-! ### Claim C7 -/

theorem execStep_issueCycles (cfg : SystemConfig) (lbl : List (String × Nat))
    (s : SimulationState) (i : Nat) :
    (execStep cfg lbl s i).instructions.map (fun x => x.issueCycle) =
      s.instructions.map (fun x => x.issueCycle) := by
  have hst : (execStep cfg lbl s i).instructions = (execUpd cfg lbl s i).instructions := rfl
  rw [hst]
  exact execUpd_instrs cfg lbl s i

theorem execPhase_issueCycles (cfg : SystemConfig) (lbl : List (String × Nat))
    (s : SimulationState) :
    (execPhase cfg lbl s).instructions.map (fun x => x.issueCycle) =
      s.instructions.map (fun x => x.issueCycle) := by
  unfold execPhase
  refine foldl_pres
    (P := fun st => st.instructions.map (fun x => x.issueCycle) =
      s.instructions.map (fun x => x.issueCycle)) ?_ _ s rfl
  intro b a hb
  rw [execStep_issueCycles, hb]

/-- C7 (amended): (1) if the branch-stall flag is true after a step, then any
instruction whose issueCycle equals the new current cycle is a BRANCH — only
the branch that raised the flag may issue in that cycle; (2) the issue phase
raises the flag only when the issued instruction is a BRANCH; (3) the execute
phase only ever clears the flag, and only when a busy station's bound
instruction is a BRANCH producing its result. -/
theorem c7_branch_stall (cfg : SystemConfig) (lbl : List (String × Nat))
    (s : SimulationState) (hf : s.isFinished = false)
    (hpre : ∀ i ∈ s.instructions, i.issueCycle ≠ some (s.cycle + 1)) :
    ((nextCycle cfg lbl s).branchStall = true →
      ∀ i ∈ (nextCycle cfg lbl s).instructions,
        i.issueCycle = some (s.cycle + 1) → getOpType i.op = OpType.BRANCH) ∧
    (∀ (t : SimulationState) (idx : Nat),
      (issueAttempt cfg t idx).branchStall = true →
        t.branchStall = true ∨
          getOpType ((t.instructions.getD idx default).op) = OpType.BRANCH) ∧
    (∀ (t : SimulationState) (i : Nat),
      (execStep cfg lbl t i).branchStall ≠ t.branchStall →
        (execStep cfg lbl t i).branchStall = false ∧
          ∃ inst ∈ t.instructions,
            (t.reservationStations.getD i default).instId = some inst.id ∧
            getOpType inst.op = OpType.BRANCH) := by
  have hpart2 : ∀ (t : SimulationState) (idx : Nat),
      (issueAttempt cfg t idx).branchStall = true →
        t.branchStall = true ∨
          getOpType ((t.instructions.getD idx default).op) = OpType.BRANCH := by
    intro t idx hflag
    unfold issueAttempt at hflag
    rcases issueGo_cases cfg t idx (t.instructions.getD idx default) with h0 | ⟨-, fIdx, -, h0⟩
    · rw [h0] at hflag
      exact Or.inl hflag
    · rw [h0, issueCommit_branchStall] at hflag
      by_cases hbr : getOpType (t.instructions.getD idx default).op = OpType.BRANCH
      · exact Or.inr hbr
      · rw [if_neg hbr] at hflag
        exact Or.inl hflag
  refine ⟨?_, hpart2, ?_⟩
  · intro hbs1 i hi hic
    have hn : nextCycle cfg lbl s = finishCheck (stepCore cfg lbl s) := by
      unfold nextCycle
      rw [if_neg (by simp [hf])]
    rw [hn, finishCheck_branchStall] at hbs1
    rw [hn, finishCheck_instructions] at hi
    unfold stepCore at hbs1 hi
    set s2 := execPhase cfg lbl (phaseWrite { s with cycle := s.cycle + 1, cdb := none })
      with hs2
    have hcyc2 : s2.cycle = s.cycle + 1 := by
      rw [hs2, execPhase_cycle, phaseWrite_cycle]
    have hmap : s2.instructions.map (fun x => x.issueCycle) =
        s.instructions.map (fun x => x.issueCycle) := by
      rw [hs2, execPhase_issueCycles, phaseWrite_issueCycles]
    have hpre2 : ∀ j ∈ s2.instructions, j.issueCycle ≠ some (s.cycle + 1) := by
      intro j hj hjc
      have : j.issueCycle ∈ s2.instructions.map (fun x => x.issueCycle) :=
        List.mem_map_of_mem _ hj
      rw [hmap] at this
      obtain ⟨i0, hi0, hieq⟩ := List.mem_map.mp this
      exact hpre i0 hi0 (by rw [hieq, hjc])
    rcases phaseIssue_cases cfg s2 with ⟨-, h0⟩ | ⟨hb2, idx, hidx, h0⟩ | ⟨-, -, -, h0⟩ |
      ⟨hb2, t0, hidx, hfind, h0⟩
    · rw [h0] at hi
      exact absurd hic (hpre2 i hi)
    · rw [h0] at hbs1 hi
      unfold issueAttempt at hbs1 hi
      rcases issueGo_cases cfg s2 idx (s2.instructions.getD idx default) with
        h1 | ⟨-, fIdx, -, h1⟩
      · rw [h1] at hi
        exact absurd hic (hpre2 i hi)
      · rw [h1, issueCommit_branchStall] at hbs1
        rw [h1, issueCommit_instructions] at hi
        rcases List.mem_or_eq_of_mem_set hi with hm | he
        · exact absurd hic (hpre2 i hm)
        · have hbr : getOpType (s2.instructions.getD idx default).op = OpType.BRANCH := by
            by_cases hbr : getOpType (s2.instructions.getD idx default).op = OpType.BRANCH
            · exact hbr
            · rw [if_neg hbr] at hbs1
              exact absurd hbs1 (by simp [hb2])
          rw [he]
          exact hbr
    · rw [h0] at hi
      exact absurd hic (hpre2 i hi)
    · rw [h0] at hbs1 hi
      unfold issueAttempt at hbs1 hi
      set s2a := ({ s2 with instructions := s2.instructions ++ [cloneInst s2 t0] } :
        SimulationState) with hs2a
      have hproj : s2a.instructions = s2.instructions ++ [cloneInst s2 t0] := rfl
      have hgetd : s2a.instructions.getD s2.instructions.length default = cloneInst s2 t0 := by
        rw [hproj]
        exact getD_last_append s2.instructions (cloneInst s2 t0) default
      rcases issueGo_cases cfg s2a s2.instructions.length
          (s2a.instructions.getD s2.instructions.length default) with
        h1 | ⟨-, fIdx, -, h1⟩
      · rw [h1, hproj] at hi
        rcases List.mem_append.mp hi with hm | hm
        · exact absurd hic (hpre2 i hm)
        · rw [List.mem_singleton.mp hm] at hic
          cases hic
      · rw [h1, issueCommit_branchStall, hgetd] at hbs1
        rw [h1, issueCommit_instructions, hgetd] at hi
        have hbs2a : s2a.branchStall = s2.branchStall := rfl
        have hbr : getOpType (cloneInst s2 t0).op = OpType.BRANCH := by
          by_cases hbr : getOpType (cloneInst s2 t0).op = OpType.BRANCH
          · exact hbr
          · rw [if_neg hbr, hbs2a] at hbs1
            exact absurd hbs1 (by simp [hb2])
        rcases List.mem_or_eq_of_mem_set hi with hm | he
        · rw [hproj] at hm
          rcases List.mem_append.mp hm with hm2 | hm2
          · exact absurd hic (hpre2 i hm2)
          · rw [List.mem_singleton.mp hm2] at hic
            cases hic
        · rw [he]
          exact hbr
  · intro t i hne
    have hst : (execStep cfg lbl t i).branchStall = (execUpd cfg lbl t i).branchStall := rfl
    rw [hst] at hne ⊢
    rcases execUpd_branchStall cfg lbl t i with h0 | ⟨h0, iid, inst, hiid, hfind, hbr⟩
    · exact absurd h0 hne
    · have hid := List.find?_some hfind
      simp only [decide_eq_true_eq] at hid
      exact ⟨h0, inst, List.mem_of_find?_eq_some hfind, by rw [hiid, hid], hbr⟩

/-- Fixture: a one-instruction branch program `BNE R1, R2, LOOP`. -/
def instBNEF : InstructionLine :=
  { id := 0, raw := "BNE R1, R2, LOOP", op := "BNE", dest := "R1", src1 := "R2",
    src2 := "LOOP", immediate := 0, pcAddress := 0, issueCycle := none,
    execStartCycle := none, execEndCycle := none, writeCycle := none }

/-- Fixture: the initial state of the one-branch program. -/
def sC7 : SimulationState :=
  initializeState [instBNEF] cfg0 [("R1", 0), ("R2", 0)]

/-- Counterexample to C7 as stated: in the very step that sets the
branch-stall flag, the branch itself receives `issueCycle = current cycle`,
so "if branch-stall is true, no instruction had its issueCycle set to the
current cycle" fails. -/
theorem c7_counterexample :
    (nextCycle cfg0 [("LOOP", 0)] sC7).branchStall = true ∧
    (nextCycle cfg0 [("LOOP", 0)] sC7).cycle = 1 ∧
    (nextCycle cfg0 [("LOOP", 0)] sC7).instructions.map (fun i => i.issueCycle) =
      [some 1] := by
  refine ⟨by decide, by decide, by decide⟩

/-- Witness for the amended C7 at the same concrete program: the hypotheses
hold in the initial state, and the conclusion follows by the theorem. -/
theorem c7_branch_stall_witness :
    ((nextCycle cfg0 [("LOOP", 0)] sC7).branchStall = true →
      ∀ i ∈ (nextCycle cfg0 [("LOOP", 0)] sC7).instructions,
        i.issueCycle = some (sC7.cycle + 1) → getOpType i.op = OpType.BRANCH) ∧
    (∀ (t : SimulationState) (idx : Nat),
      (issueAttempt cfg0 t idx).branchStall = true →
        t.branchStall = true ∨
          getOpType ((t.instructions.getD idx default).op) = OpType.BRANCH) ∧
    (∀ (t : SimulationState) (i : Nat),
      (execStep cfg0 [("LOOP", 0)] t i).branchStall ≠ t.branchStall →
        (execStep cfg0 [("LOOP", 0)] t i).branchStall = false ∧
          ∃ inst ∈ t.instructions,
            (t.reservationStations.getD i default).instId = some inst.id ∧
            getOpType inst.op = OpType.BRANCH) :=
  c7_branch_stall cfg0 [("LOOP", 0)] sC7 rfl (by decide)

/-! ### Claim C9 -/

theorem firstPassGo_pcs :
    ∀ (lines : List (List Char)) (pc0 : Nat) (acc : List (List Char × Nat))
      (lab : List (String × Nat)),
      ∃ rest, (firstPassGo lines pc0 acc lab).1 = acc.reverse ++ rest ∧
        ∀ j, ∀ hj : j < rest.length, (rest.get ⟨j, hj⟩).2 = pc0 + 4 * j := by
  intro lines
  induction lines with
  | nil =>
    intro pc0 acc lab
    exact ⟨[], by simp [firstPassGo], fun j hj => by simp at hj⟩
  | cons line ls ih =>
    intro pc0 acc lab
    unfold firstPassGo
    split
    · obtain ⟨rest, h1, h2⟩ :=
        ih (pc0 + 4) (((firstPassLabel line pc0 lab).2, pc0) :: acc)
          (firstPassLabel line pc0 lab).1
      refine ⟨((firstPassLabel line pc0 lab).2, pc0) :: rest, ?_, ?_⟩
      · rw [h1]
        simp
      · intro j hj
        match j with
        | 0 => simp
        | j' + 1 =>
          have hj' : j' < rest.length := by
            simp only [List.length_cons] at hj
            omega
          have := h2 j' hj'
          simp only [List.get_cons_succ]
          rw [this]
          ring
    · exact ih pc0 acc (firstPassLabel line pc0 lab).1

/-- C9 (amended): the parser never fails — it is a total function.  For every
source text, including ones with unrecognized opcodes or malformed operands,
it produces a complete instruction list in which the k-th instruction has
identity k, PC address 4·k, and all four timestamps null. -/
theorem c9_parser_total (src : String) :
    ∀ k, ∀ hk : k < (parseAssembly src).1.length,
      ((parseAssembly src).1.get ⟨k, hk⟩).id = k ∧
      ((parseAssembly src).1.get ⟨k, hk⟩).pcAddress = 4 * k ∧
      ((parseAssembly src).1.get ⟨k, hk⟩).issueCycle = none ∧
      ((parseAssembly src).1.get ⟨k, hk⟩).execStartCycle = none ∧
      ((parseAssembly src).1.get ⟨k, hk⟩).execEndCycle = none ∧
      ((parseAssembly src).1.get ⟨k, hk⟩).writeCycle = none := by
  intro k hk
  obtain ⟨rest, h1, h2⟩ :=
    firstPassGo_pcs
      (((splitCharList (fun c => c = '\n') src.data).map trimChars).filter
        (fun l => l.length > 0)) 0 [] []
  have hinstr : (parseAssembly src).1 =
      (firstPassGo
        (((splitCharList (fun c => c = '\n') src.data).map trimChars).filter
          (fun l => l.length > 0)) 0 [] []).1.mapIdx
        (fun idx item =>
          parseLine
            (firstPassGo
              (((splitCharList (fun c => c = '\n') src.data).map trimChars).filter
                (fun l => l.length > 0)) 0 [] []).2 idx item) := rfl
  have hrest : (firstPassGo
      (((splitCharList (fun c => c = '\n') src.data).map trimChars).filter
        (fun l => l.length > 0)) 0 [] []).1 = rest := by
    rw [h1]
    simp
  have hk2 : k < rest.length := by
    have := hk
    rw [hinstr] at this
    simpa [List.length_mapIdx, hrest] using this
  have hget : (parseAssembly src).1.get ⟨k, hk⟩ =
      parseLine
        (firstPassGo
          (((splitCharList (fun c => c = '\n') src.data).map trimChars).filter
            (fun l => l.length > 0)) 0 [] []).2 k (rest.get ⟨k, hk2⟩) := by
    rw [List.get_eq_getElem, List.get_eq_getElem]
    rw [List.getElem_of_eq hinstr hk]
    rw [List.getElem_mapIdx]
    congr 1
    exact List.getElem_of_eq hrest _
  rw [hget]
  refine ⟨rfl, ?_, rfl, rfl, rfl, rfl⟩
  have hpc : (rest.get ⟨k, hk2⟩).2 = 0 + 4 * k := h2 k hk2
  show (rest.get ⟨k, hk2⟩).2 = 4 * k
  omega

/-- Counterexample to C9 as stated: a source line with an unrecognized opcode
and a malformed memory operand is parsed successfully — the parser has no
failure path at all, and a full (instructions, labels) result is produced
instead of a ParseError. -/
theorem c9_counterexample :
    (parseAssembly "FOO X, Y(((").1.map
        (fun i => (i.op, i.dest, i.src1, i.id, i.pcAddress)) =
      [("FOO", "X", "Y(((", 0, 0)] ∧
    (parseAssembly "FOO X, Y(((").2 = [] := by
  refine ⟨by decide, by decide⟩

/-- Witness for the amended C9 at a concrete input: the second line of a
two-line source (its first line malformed) still gets identity 1, PC 4, and
null timestamps. -/
theorem c9_parser_total_witness :
    ((parseAssembly "FOO X, Y(((\nL.D F0, 0(R1)").1.get ⟨1, by decide⟩).id = 1 ∧
    ((parseAssembly "FOO X, Y(((\nL.D F0, 0(R1)").1.get ⟨1, by decide⟩).pcAddress = 4 * 1 ∧
    ((parseAssembly "FOO X, Y(((\nL.D F0, 0(R1)").1.get ⟨1, by decide⟩).issueCycle = none ∧
    ((parseAssembly "FOO X, Y(((\nL.D F0, 0(R1)").1.get ⟨1, by decide⟩).execStartCycle = none ∧
    ((parseAssembly "FOO X, Y(((\nL.D F0, 0(R1)").1.get ⟨1, by decide⟩).execEndCycle = none ∧
    ((parseAssembly "FOO X, Y(((\nL.D F0, 0(R1)").1.get ⟨1, by decide⟩).writeCycle = none :=
  c9_parser_total "FOO X, Y(((\nL.D F0, 0(R1)" 1 (by decide)
